import Mathlib

/-!
Verification of the row→graph→layout→serialization pipeline of
`docs/web_network.py` (`create_web_network`).

The pipeline is embedded shallowly:

* an input row of `data/normal.csv` is a `Row` (gene symbol, tumor label,
  PCC score); the float score is modelled as a rational;
* the networkx graph is a `Graph`: an insertion-ordered association list of
  nodes (with their attributes) and an insertion-ordered list of undirected
  weighted edges, with `add_node`/`add_edge` update semantics;
* the `fixed_positions` dict is an association list of real-valued points;
  the two `np.random.normal` draws consumed by each gene row are supplied by
  an explicit stream `noise : ℕ → ℝ × ℝ`, indexed by the number of gene rows
  processed so far;
* the node/link payload embedded in the generated HTML is a list of
  `OutNode` / `OutLink` records mirroring the JSON dictionaries.
-/

namespace WebNetwork

/-- One row of the input table: a gene symbol (`'Gene Symbol'`), a tumor /
tissue label (`'Tumor'`) and a Pearson correlation coefficient (`'PCC'`).
The float score is modelled as a rational. -/
structure Row where
  gene : String
  tumor : String
  pcc : ℚ
deriving DecidableEq, Repr

/-- The correlation threshold `0.8` of line 18, as a rational (`mkRat` is used
so that concrete runs of the embedding reduce inside the kernel). -/
def threshold : ℚ := mkRat 4 5

/-- Threshold filtering, from line 18: `filtered_df = df[df['PCC'] >= 0.8]`. -/
def filteredRows (rows : List Row) : List Row :=
  rows.filter (fun r => decide (threshold ≤ r.pcc))

/-- First-seen distinct values, the behaviour of pandas `Series.unique()`
(line 22): order of first appearance is preserved. -/
def uniques : List String → List String
  | [] => []
  | x :: xs => x :: (uniques xs).filter (fun y => decide (y ≠ x))

/-- `tissue_types = filtered_df[type_column].unique()` (line 22). -/
def tissueTypes (rows : List Row) : List String :=
  uniques ((filteredRows rows).map Row.tumor)

/-- The filtered rows carrying one tissue label, in original row order:
`filtered_df[filtered_df[type_column] == tissue]` (line 70). -/
def catRows (rows : List Row) (t : String) : List Row :=
  (filteredRows rows).filter (fun r => decide (r.tumor = t))

/-- `tissue_gene_counts = Counter(filtered_df[type_column])` (line 23): the
number of filtered rows labelled `t`, counted before the per-tissue cap and
before any gene-name deduplication. -/
def tissueGeneCount (rows : List Row) (t : String) : ℕ :=
  (catRows rows t).length

/-- The comparison used by `sort_values('PCC', ascending=False)` (line 70):
descending score. -/
def scoreGE (a b : Row) : Prop := b.pcc ≤ a.pcc

instance : DecidableRel scoreGE := fun a b =>
  inferInstanceAs (Decidable (b.pcc ≤ a.pcc))

instance : IsTotal Row scoreGE := ⟨fun a b => le_total b.pcc a.pcc⟩

instance : IsTrans Row scoreGE := ⟨fun _ _ _ h1 h2 => le_trans h2 h1⟩

/-- `max_genes_per_tissue = 150` (line 65). -/
def maxGenesPerTissue : ℕ := 150

/-- The rows of one tissue retained for the graph: sorted by descending PCC
and truncated to at most 150 (lines 70–75; `head` is applied exactly when
the count exceeds 150, which is the same as always taking at most 150).
`sort_values` uses pandas' default quicksort, whose order on equal scores is
implementation-defined (and not the original row order for long equal runs);
the model fixes one descending order — stable insertion sort — as a
representative.  Theorems below therefore only use properties shared by
every descending sort (membership, length, sortedness), never the model's
particular tie order. -/
def topRows (rows : List Row) (t : String) : List Row :=
  (List.insertionSort scoreGE (catRows rows t)).take maxGenesPerTissue

/-! ### Insertion-ordered string-keyed dictionaries

Both the networkx node set and the `fixed_positions` dict are
insertion-ordered maps from strings; assignment updates an existing entry in
place and appends a new one at the end. -/

/-- `k in d`. -/
def hasKey {β : Type} (l : List (String × β)) (n : String) : Bool :=
  l.any (fun p => p.1 = n)

/-- `d[k]`, as an `Option`. -/
def lookupKey {β : Type} (l : List (String × β)) (n : String) : Option β :=
  (l.find? (fun p => p.1 = n)).map Prod.snd

/-- Replace the value stored under an existing key. -/
def updateKey {β : Type} (l : List (String × β)) (n : String) (v : β) :
    List (String × β) :=
  l.map (fun p => if p.1 = n then (n, v) else p)

/-- `d[k] = v`: update in place when present, append otherwise. -/
def setKey {β : Type} (l : List (String × β)) (n : String) (v : β) :
    List (String × β) :=
  if hasKey l n then updateKey l n v else l ++ [(n, v)]

/-- Attributes stored on a networkx node by `create_web_network`:
`node_type='central'`, `node_type='tissue', gene_count=…`, or
`node_type='gene', pcc=…, tissue=…`. -/
inductive NodeData where
  | central : NodeData
  | tissue (geneCount : ℕ) : NodeData
  | gene (pcc : ℚ) (tumor : String) : NodeData
deriving DecidableEq, Repr

/-- The networkx graph: nodes in insertion order with their attributes, and
undirected weighted edges in insertion order. -/
structure Graph where
  nodes : List (String × NodeData)
  edges : List (String × String × ℚ)
deriving DecidableEq, Repr

/-- `n in G`. -/
def hasNode (g : Graph) (n : String) : Bool :=
  hasKey g.nodes n

/-- Attribute lookup `G.nodes[n]`. -/
def nodeData (g : Graph) (n : String) : Option NodeData :=
  lookupKey g.nodes n

/-- `G.add_node`: networkx replaces the stored attributes when the node
already exists (keeping its place in insertion order) and appends a new node
otherwise. -/
def addNode (g : Graph) (n : String) (d : NodeData) : Graph :=
  { g with nodes := setKey g.nodes n d }

/-- Whether a stored edge `(a, b)` is the undirected edge between `u` and
`v`. -/
def edgeMatch (u v a b : String) : Bool :=
  (a = u && b = v) || (a = v && b = u)

def hasEdge (g : Graph) (u v : String) : Bool :=
  g.edges.any (fun e => edgeMatch u v e.1 e.2.1)

/-- Replace the weight of the stored edges matching `(u, v)`. -/
def updateEdge (es : List (String × String × ℚ)) (u v : String) (w : ℚ) :
    List (String × String × ℚ) :=
  es.map (fun e => if edgeMatch u v e.1 e.2.1 then (e.1, e.2.1, w) else e)

/-- `G.add_edge(u, v, weight=w)`: undirected; re-adding an existing edge
updates its weight in place.  Every `add_edge` call in the script happens
when both endpoints are already nodes, so implicit endpoint creation need
not be modelled. -/
def addEdge (g : Graph) (u v : String) (w : ℚ) : Graph :=
  if hasEdge g u v then
    { g with edges := updateEdge g.edges u v w }
  else
    { g with edges := g.edges ++ [(u, v, w)] }

/-- Weight of the undirected edge between `u` and `v`, when present. -/
def edgeWeight (g : Graph) (u v : String) : Option ℚ :=
  (g.edges.find? (fun e => edgeMatch u v e.1 e.2.1)).map (fun e => e.2.2)

/-- Lines 78–86, one retained row: add the gene node only if absent
(`if gene not in G`), then (re)add the gene–tissue edge with weight
`pcc * 3`. -/
def processRow (t : String) (g : Graph) (r : Row) : Graph :=
  let g1 := if hasNode g r.gene then g else addNode g r.gene (NodeData.gene r.pcc t)
  addEdge g1 r.gene t (r.pcc * 3)

/-- The gene loop for one tissue (lines 68–86). -/
def processTissueRows (rows : List Row) (t : String) (g : Graph) : Graph :=
  (topRows rows t).foldl (processRow t) g

/-- Lines 54–62, one tissue: add the tissue node carrying its pre-cap row
count, and the central–tissue edge with weight 5. -/
def addTissue (rows : List Row) (central : String) (g : Graph) (t : String) : Graph :=
  addEdge (addNode g t (NodeData.tissue (tissueGeneCount rows t))) central t 5

/-- The graph after lines 27–62: the central node, and every tissue node
with its edge to the central node. -/
def phase1Graph (rows : List Row) (central : String) : Graph :=
  (tissueTypes rows).foldl (addTissue rows central)
    { nodes := [(central, NodeData.central)], edges := [] }

/-- Graph construction of `create_web_network` (lines 27–86): central node,
then one pass over the tissues adding tissue nodes and central edges, then
one pass adding the retained gene rows of each tissue. -/
def buildGraph (rows : List Row) (central : String) : Graph :=
  (tissueTypes rows).foldl (fun g t => processTissueRows rows t g)
    (phase1Graph rows central)

/-- The other endpoints of the edges incident to `t` (each undirected edge is
stored once, so each neighbor appears once). -/
def neighborsOf (g : Graph) (t : String) : List String :=
  g.edges.filterMap (fun e =>
    if e.1 = t then some e.2.1 else if e.2.1 = t then some e.1 else none)

/-- Whether the node named `n` carries `node_type='gene'`. -/
def isGeneNode (g : Graph) (n : String) : Bool :=
  match nodeData g n with
  | some (NodeData.gene _ _) => true
  | _ => false

/-- The number of gene-typed nodes attached (by an edge) to the node `t`. -/
def attachedItemCount (g : Graph) (t : String) : ℕ :=
  ((neighborsOf g t).filter (isGeneNode g)).length

/-- Whether node attributes carry `node_type='tissue'`. -/
def isTissueData : NodeData → Bool
  | NodeData.tissue _ => true
  | _ => false

/-- The number of tissue-typed nodes of the graph. -/
def tissueNodeCount (g : Graph) : ℕ :=
  (g.nodes.filter (fun p => isTissueData p.2)).length

/-- All retained `(tissue, row)` pairs in processing order: tissues in
first-seen order, rows within a tissue in descending-score order. -/
def retainedPairs (rows : List Row) : List (String × Row) :=
  ((tissueTypes rows).map (fun t => (topRows rows t).map (fun r => (t, r)))).flatten

/-- The gene loop body applied to one `(tissue, row)` pair. -/
def processPair (g : Graph) (p : String × Row) : Graph :=
  processRow p.1 g p.2

/-- The tissue label and score of the first retained row (in processing
order) carrying a given gene name, if any. -/
def firstRetainedFor (rows : List Row) (gname : String) : Option (String × ℚ) :=
  ((retainedPairs rows).find? (fun p => p.2.gene = gname)).map (fun p => (p.1, p.2.pcc))

/-- Structural facts that hold after phase 1 and are preserved by every step
of the gene-adding phase: tissue labels name tissue-typed nodes, the central
node exists and is never gene-typed (it is central-typed, or tissue-typed
when its name is also a tissue label), every other node is gene-typed, and
both endpoints of every edge are nodes. -/
def Phase2Inv (rows : List Row) (central : String) (g : Graph) : Prop :=
  (∀ s ∈ tissueTypes rows, ∃ c, nodeData g s = some (NodeData.tissue c))
    ∧ (hasNode g central = true ∧ isGeneNode g central = false)
    ∧ (∀ n, hasNode g n = true →
        n = central ∨ n ∈ tissueTypes rows
          ∨ ∃ p tt, nodeData g n = some (NodeData.gene p tt))
    ∧ (∀ e ∈ g.edges, hasNode g e.1 = true ∧ hasNode g e.2.1 = true)

/-! ### Layout

`pd.read_csv` gives the dataframe the index `0, 1, 2, …`; filtering and
slicing keep those labels, and `iterrows()` (line 78) yields them as `idx`.
The layout therefore needs each row's position in the *original* input, so
it works on `rows.enum`. -/

/-- The filtered rows together with their original dataframe index. -/
def filteredIRows (rows : List Row) : List (ℕ × Row) :=
  rows.enum.filter (fun p => decide (threshold ≤ p.2.pcc))

/-- The indexed filtered rows of one tissue, in original row order. -/
def catIRows (rows : List Row) (t : String) : List (ℕ × Row) :=
  (filteredIRows rows).filter (fun p => decide (p.2.tumor = t))

/-- Descending-score comparison on indexed rows. -/
def scoreGEI (a b : ℕ × Row) : Prop := b.2.pcc ≤ a.2.pcc

instance : DecidableRel scoreGEI := fun a b =>
  inferInstanceAs (Decidable (b.2.pcc ≤ a.2.pcc))

instance : IsTotal (ℕ × Row) scoreGEI := ⟨fun a b => le_total b.2.pcc a.2.pcc⟩

instance : IsTrans (ℕ × Row) scoreGEI := ⟨fun _ _ _ h1 h2 => le_trans h2 h1⟩

/-- The indexed retained rows of one tissue: sorted by descending PCC, capped
at 150 (the indexed counterpart of `topRows`, with the same caveat: the
pandas quicksort's tie order is implementation-defined and the stable sort
here is one representative of it). -/
def topIRows (rows : List Row) (t : String) : List (ℕ × Row) :=
  (List.insertionSort scoreGEI (catIRows rows t)).take maxGenesPerTissue

/-- All gene names that get a position assignment in the gene loop, in
assignment order. -/
def retainedGeneNames (rows : List Row) : List String :=
  ((tissueTypes rows).map (fun t => (topIRows rows t).map (fun p => p.2.gene))).flatten

/-- A 2-D point. -/
abbrev Pos := ℝ × ℝ

/-- Assignment `d[k] = v` on the `fixed_positions` dict, modelled as an
insertion-ordered association list. -/
def assign (ps : List (String × Pos)) (k : String) (v : Pos) : List (String × Pos) :=
  setKey ps k v

/-- Lookup `d[k]`; every lookup the script performs is of a key previously
assigned, so the default is never exercised. -/
noncomputable def lookupPos (ps : List (String × Pos)) (k : String) : Pos :=
  (lookupKey ps k).getD (0, 0)

/-- `golden_angle = math.pi * (3 - math.sqrt(5))` (line 52). -/
noncomputable def goldenAngle : ℝ := Real.pi * (3 - Real.sqrt 5)

/-- `radius = 400` (line 51). -/
def circleRadius : ℝ := 400

/-- Position of the `i`-th tissue (lines 55–57): angle `i * golden_angle` on
the circle of radius 400. -/
noncomputable def circlePos (i : ℕ) : Pos :=
  (circleRadius * Real.cos (i * goldenAngle), circleRadius * Real.sin (i * goldenAngle))

/-- `noise_scale = 0.3 + 0.6 * (1 - pcc)` (line 97), the standard deviation
handed to the two `np.random.normal(0, noise_scale)` draws.  The sampled
values themselves are supplied externally, so the scale does not enter the
position arithmetic. -/
noncomputable def noiseScale (pcc : ℚ) : ℝ := 0.3 + 0.6 * (1 - (pcc : ℝ))

/-- Gene position, lines 91–106: `idx` is the value `iterrows()` yields (the
original dataframe index of the row), `n = len(tissue_genes)` the capped list
length, and `d1`, `d2` the two `np.random.normal(0, noise_scale)` draws. -/
noncomputable def genePos (tpos : Pos) (idx n : ℕ) (pcc : ℚ) (d1 d2 : ℝ) : Pos :=
  let angle : ℝ := ((idx : ℝ) / (n : ℝ)) * (2 * Real.pi)
  let distance : ℝ := 50 + (1 - (pcc : ℝ)) * 150
  let angleNoise : ℝ := d1 * 0.5
  let distanceNoise : ℝ := d2 * 50
  let cloudAngle := angle + angleNoise
  let cloudDistance := distance + distanceNoise
  (tpos.1 + cloudDistance * Real.cos cloudAngle,
   tpos.2 + cloudDistance * Real.sin cloudAngle)

/-- The tissue placement loop (lines 54–58). -/
noncomputable def placeTissues (rows : List Row) (ps0 : List (String × Pos)) :
    List (String × Pos) :=
  ((tissueTypes rows).enum).foldl (fun ps p => assign ps p.2 (circlePos p.1)) ps0

/-- One gene row of the position loop: consume the next two normal draws and
assign the row's gene its cloud position around `fixed_positions[tissue]`
(looked up at that moment). -/
noncomputable def placeGeneRow (t : String) (n : ℕ) (noise : ℕ → ℝ × ℝ)
    (acc : List (String × Pos) × ℕ) (p : ℕ × Row) : List (String × Pos) × ℕ :=
  let d := noise acc.2
  let tpos := lookupPos acc.1 t
  (assign acc.1 p.2.gene (genePos tpos p.1 n p.2.pcc d.1 d.2), acc.2 + 1)

/-- The gene position loop for one tissue (lines 68–107); the counter in the
accumulator indexes the draw stream. -/
noncomputable def placeTissueGenes (rows : List Row) (noise : ℕ → ℝ × ℝ)
    (acc : List (String × Pos) × ℕ) (t : String) : List (String × Pos) × ℕ :=
  (topIRows rows t).foldl (placeGeneRow t (topIRows rows t).length noise) acc

/-- The full `fixed_positions` dict at the end of the build (lines 45–107):
central at the origin, tissues on the golden-angle circle, genes scattered
around their tissue. -/
noncomputable def buildPositions (rows : List Row) (central : String)
    (noise : ℕ → ℝ × ℝ) : List (String × Pos) :=
  let ps0 := assign [] central ((0 : ℝ), (0 : ℝ))
  let ps1 := placeTissues rows ps0
  ((tissueTypes rows).foldl (placeTissueGenes rows noise) (ps1, 0)).1

/-! ### Serialization (lines 112–166) -/

/-- The 22 hex colors of lines 34–38 (`"#ff7f00"` really appears twice). -/
def colorList : List String :=
  ["#4daf4a", "#f781bf", "#a65628", "#984ea3", "#999999", "#e41a1c", "#377eb8",
   "#ff7f00", "#ffff33", "#a6cee3", "#1f78b4", "#b2df8a", "#33a02c", "#fb9a99",
   "#e31a1c", "#fdbf6f", "#ff7f00", "#cab2d6", "#6a3d9a", "#ffff99", "#b15928",
   "#00ffff"]

/-- `tissue_colors.get(t, "#999999")` where `tissue_colors[tissue_types[i]] =
color_list[i % len(color_list)]` (lines 40–42). -/
def tissueColor (tissues : List String) (t : String) : String :=
  match tissues.findIdx? (fun x => x = t) with
  | some i => colorList.getD (i % colorList.length) "#999999"
  | none => "#999999"

/-- One record of the `nodes_data` JSON array (§6 contract:
`id, name, node_type, size, color, x, y, label?, gene_count?, pcc?, tissue?`). -/
structure OutNode where
  id : String
  name : String
  node_type : String
  size : ℕ
  color : String
  x : ℝ
  y : ℝ
  label : Option String
  gene_count : Option ℕ
  pcc : Option ℚ
  tissue : Option String

/-- One record of the `links_data` JSON array. -/
structure OutLink where
  source : String
  target : String
  value : ℚ
deriving DecidableEq, Repr

/-- The unconditional central entry of lines 116–125. -/
noncomputable def centralEntry (central : String) (ps : List (String × Pos)) : OutNode :=
  { id := central, name := central, node_type := "central", size := 50,
    color := "red", x := (lookupPos ps central).1, y := (lookupPos ps central).2,
    label := some (central ++ " (central)"), gene_count := none, pcc := none,
    tissue := none }

/-- A serialized tissue node (lines 134–145). -/
noncomputable def tissueEntry (tissues : List String) (ps : List (String × Pos))
    (t : String) (c : ℕ) : OutNode :=
  { id := t, name := t, node_type := "tissue", size := 25,
    color := tissueColor tissues t, x := (lookupPos ps t).1, y := (lookupPos ps t).2,
    label := some (t ++ " (n=" ++ toString c ++ ")"), gene_count := some c,
    pcc := none, tissue := none }

/-- A serialized gene node (lines 146–158). -/
noncomputable def geneEntry (tissues : List String) (ps : List (String × Pos))
    (gname : String) (p : ℚ) (t : String) : OutNode :=
  { id := gname, name := gname, node_type := "gene", size := 3,
    color := tissueColor tissues t, x := (lookupPos ps gname).1,
    y := (lookupPos ps gname).2, label := none, gene_count := none,
    pcc := some p, tissue := some t }

/-- The serialization loop of lines 116–158, as a function of the built
graph, the tissue list (for colors), and the position dict: the central
entry first, then every non-central graph node in insertion order, tissue-
and gene-typed ones only. -/
noncomputable def serializeNodesOf (g : Graph) (tissues : List String)
    (ps : List (String × Pos)) (central : String) : List OutNode :=
  centralEntry central ps ::
    g.nodes.filterMap (fun nd =>
      if nd.1 = central then none
      else
        match nd.2 with
        | NodeData.tissue c => some (tissueEntry tissues ps nd.1 c)
        | NodeData.gene p t => some (geneEntry tissues ps nd.1 p t)
        | NodeData.central => none)

/-- `nodes_data` for a given input. -/
noncomputable def serializeNodes (rows : List Row) (central : String)
    (noise : ℕ → ℝ × ℝ) : List OutNode :=
  serializeNodesOf (buildGraph rows central) (tissueTypes rows)
    (buildPositions rows central noise) central

/-- `links_data` (lines 161–166): every graph edge with its weight. -/
def serializeLinks (rows : List Row) (central : String) : List OutLink :=
  (buildGraph rows central).edges.map
    (fun e => { source := e.1, target := e.2.1, value := e.2.2 })

/-- Erase the coordinates of a serialized node, keeping identity and
attributes: the "node set" as opposed to the layout. -/
noncomputable def stripPos (nd : OutNode) : OutNode :=
  { nd with x := 0, y := 0 }

/-! ### Top level (lines 11–18, 855–870) -/

/-- The input file as seen by `pd.read_csv`: its column names, plus the
parsed rows (meaningful when the three required columns are present). -/
structure Table where
  columns : List String
  rows : List Row

/-- Output of a successful run: the returned pair `(G, fixed_positions)` and
the node/link payload written into the HTML file. -/
structure RunOutput where
  graph : Graph
  positions : List (String × Pos)
  nodesData : List OutNode
  linksData : List OutLink

/-- The body of the `try` block.  Column accesses raise `KeyError`:
`df['PCC']` at line 18, `filtered_df['Tumor']` at line 22, and
`row['Gene Symbol']` at line 79 — the last one only executes if some
filtered row is iterated, i.e. if the filtered frame is nonempty. -/
noncomputable def createWebNetworkE (tbl : Table) (central : String)
    (noise : ℕ → ℝ × ℝ) : Except String RunOutput :=
  if "PCC" ∉ tbl.columns then Except.error "KeyError: PCC"
  else if "Tumor" ∉ tbl.columns then Except.error "KeyError: Tumor"
  else if "Gene Symbol" ∉ tbl.columns ∧ filteredRows tbl.rows ≠ [] then
    Except.error "KeyError: Gene Symbol"
  else
    Except.ok
      { graph := buildGraph tbl.rows central,
        positions := buildPositions tbl.rows central noise,
        nodesData := serializeNodes tbl.rows central noise,
        linksData := serializeLinks tbl.rows central }

/-- The whole procedure with its catch-all `except` (lines 15, 866–870): on
any error the trace is printed and `(None, None)` is returned; the file
write only happens on the success path, so an error also means no output
file.  The first component models the returned pair, the second the written
file content. -/
noncomputable def createWebNetwork (tbl : Table) (central : String)
    (noise : ℕ → ℝ × ℝ) :
    Option (Graph × List (String × Pos)) × Option (List OutNode × List OutLink) :=
  match createWebNetworkE tbl central noise with
  | Except.ok r => (some (r.graph, r.positions), some (r.nodesData, r.linksData))
  | Except.error _ => (none, none)

/-! ### A definition taken from the spec, for comparison with the code -/

/-- Modelled from the spec: missing from the source is nothing — this is the
spec §4.3 item-placement formula, stated for comparison with `genePos`.  It
reads "for item at index `idx` within its category's sorted-by-score list of
size `n`: base angle = `(idx / n) · 2π`", i.e. the numerator is the item's
rank in the sorted, capped list — not the original dataframe index that
`iterrows()` yields. -/
noncomputable def specItemPos (tpos : Pos) (rank n : ℕ) (pcc : ℚ) (d1 d2 : ℝ) : Pos :=
  genePos tpos rank n pcc d1 d2

/-! ### Concrete inputs used to exercise the pipeline -/

/-- A draw stream in which every normal sample comes out 0. -/
def zeroNoise : ℕ → ℝ × ℝ := fun _ => ((0 : ℝ), (0 : ℝ))

/-- 150 equal-score rows of gene `A` followed by one lower-score row of gene
`B`, all in tissue `T` and all above threshold: 151 rows, 2 distinct gene
names. -/
def c1rows : List Row :=
  List.replicate 150 ⟨"A", "T", mkRat 9 10⟩ ++ [⟨"B", "T", mkRat 4 5⟩]

/-- One row whose tissue label coincides with the default central gene. -/
def c2rows : List Row := [⟨"g", "GCH1", mkRat 9 10⟩]

/-- A sub-threshold first row, then two rows of tissue `T`: the surviving
rows carry original dataframe indices 1 and 2. -/
def c3rows : List Row :=
  [⟨"C", "T", mkRat 1 2⟩, ⟨"A", "T", mkRat 9 10⟩, ⟨"B", "T", mkRat 17 20⟩]

/-- One row whose gene name coincides with the central node id. -/
def c6rows : List Row := [⟨"GCH1", "T", mkRat 9 10⟩]

/-- One row whose gene name coincides with its own tissue label. -/
def c7rows : List Row := [⟨"X", "X", mkRat 9 10⟩]

/-! ## Lemmas -/

theorem threshold_eq : threshold = 4/5 := by
  rw [threshold, Rat.mkRat_eq_div]; norm_num

/-! ## Lemmas: insertion-ordered dictionaries -/

theorem lookupKey_nil {β : Type} (n : String) : lookupKey ([] : List (String × β)) n = none := rfl

theorem lookupKey_cons {β : Type} (p : String × β) (l : List (String × β)) (n : String) :
    lookupKey (p :: l) n = if p.1 = n then some p.2 else lookupKey l n := by
  by_cases h : p.1 = n <;> simp [lookupKey, List.find?_cons, h]

theorem hasKey_nil {β : Type} (n : String) : hasKey ([] : List (String × β)) n = false := rfl

theorem hasKey_cons {β : Type} (p : String × β) (l : List (String × β)) (n : String) :
    hasKey (p :: l) n = (decide (p.1 = n) || hasKey l n) := by
  simp [hasKey, List.any_cons]

theorem hasKey_eq_false_iff {β : Type} {l : List (String × β)} {n : String} :
    hasKey l n = false ↔ ∀ p ∈ l, p.1 ≠ n := by
  simp [hasKey, List.any_eq_false]

theorem lookupKey_eq_none_of_hasKey_eq_false {β : Type} {l : List (String × β)} {n : String}
    (h : hasKey l n = false) : lookupKey l n = none := by
  rw [hasKey_eq_false_iff] at h
  unfold lookupKey
  cases hf : l.find? (fun p => decide (p.1 = n)) with
  | none => rfl
  | some p =>
      have hp := List.find?_some hf
      have hm := List.mem_of_find?_eq_some hf
      simp only [decide_eq_true_eq] at hp
      exact absurd hp (h p hm)

theorem lookupKey_isSome_of_hasKey {β : Type} {l : List (String × β)} {n : String}
    (h : hasKey l n = true) : (lookupKey l n).isSome = true := by
  induction l with
  | nil => simp [hasKey] at h
  | cons p l ih =>
      rw [lookupKey_cons]
      by_cases hp : p.1 = n
      · simp [hp]
      · rw [hasKey_cons] at h
        simp only [hp, decide_eq_true_eq, Bool.or_eq_true] at h
        rw [if_neg hp]
        exact ih (by tauto)

theorem lookupKey_updateKey_self {β : Type} {l : List (String × β)} {n : String} (v : β)
    (h : hasKey l n = true) : lookupKey (updateKey l n v) n = some v := by
  induction l with
  | nil => simp [hasKey] at h
  | cons p l ih =>
      by_cases hp : p.1 = n
      · simp [updateKey, lookupKey, List.find?_cons, hp]
      · rw [hasKey_cons] at h
        simp only [hp, decide_eq_true_eq, Bool.or_eq_true] at h
        have h2 : hasKey l n = true := by tauto
        simp only [updateKey, List.map_cons, if_neg hp]
        rw [lookupKey_cons, if_neg hp]
        exact ih h2

theorem lookupKey_updateKey_of_ne {β : Type} (l : List (String × β)) {m n : String} (v : β)
    (h : m ≠ n) : lookupKey (updateKey l n v) m = lookupKey l m := by
  induction l with
  | nil => rfl
  | cons p l ih =>
      by_cases hp : p.1 = n
      · have hn : ¬((n : String) = m) := fun hc => h hc.symm
        simp only [updateKey, List.map_cons, if_pos hp]
        rw [lookupKey_cons, lookupKey_cons]
        simp only [hn, if_false]
        have hpm : ¬(p.1 = m) := by rw [hp]; exact hn
        simp only [hpm, if_false]
        exact ih
      · simp only [updateKey, List.map_cons, if_neg hp]
        rw [lookupKey_cons, lookupKey_cons]
        by_cases hpm : p.1 = m
        · simp [hpm]
        · simp only [hpm, if_false]
          exact ih

theorem lookupKey_append_single_self {β : Type} {l : List (String × β)} {n : String} (v : β)
    (h : hasKey l n = false) : lookupKey (l ++ [(n, v)]) n = some v := by
  induction l with
  | nil => simp [lookupKey, List.find?_cons]
  | cons p l ih =>
      rw [hasKey_cons] at h
      simp only [Bool.or_eq_false_iff, decide_eq_false_iff_not] at h
      rw [List.cons_append, lookupKey_cons]
      simp only [h.1, if_false]
      exact ih h.2

theorem lookupKey_append_single_of_ne {β : Type} (l : List (String × β)) {m n : String}
    (v : β) (h : m ≠ n) : lookupKey (l ++ [(n, v)]) m = lookupKey l m := by
  induction l with
  | nil =>
      have hn : ¬((n : String) = m) := fun hc => h hc.symm
      simp [lookupKey_cons, hn]
  | cons p l ih =>
      rw [List.cons_append, lookupKey_cons, lookupKey_cons]
      by_cases hpm : p.1 = m
      · simp [hpm]
      · simp only [hpm, if_false]
        exact ih

theorem lookupKey_setKey_self {β : Type} (l : List (String × β)) (n : String) (v : β) :
    lookupKey (setKey l n v) n = some v := by
  unfold setKey
  by_cases h : hasKey l n = true
  · simpa [h] using lookupKey_updateKey_self v h
  · rw [Bool.not_eq_true] at h
    simpa [h] using lookupKey_append_single_self v h

theorem lookupKey_setKey_of_ne {β : Type} (l : List (String × β)) {m n : String} (v : β)
    (h : m ≠ n) : lookupKey (setKey l n v) m = lookupKey l m := by
  unfold setKey
  split
  · exact lookupKey_updateKey_of_ne l v h
  · exact lookupKey_append_single_of_ne l v h

theorem map_fst_updateKey {β : Type} (l : List (String × β)) (n : String) (v : β) :
    (updateKey l n v).map Prod.fst = l.map Prod.fst := by
  induction l with
  | nil => rfl
  | cons p l ih =>
      simp only [updateKey, List.map_cons] at ih ⊢
      by_cases hp : p.1 = n
      · simp [hp, ih]
      · simp [hp, ih]

theorem map_fst_setKey_of_hasKey {β : Type} {l : List (String × β)} {n : String} (v : β)
    (h : hasKey l n = true) : (setKey l n v).map Prod.fst = l.map Prod.fst := by
  simp [setKey, h, map_fst_updateKey]

theorem map_fst_setKey_of_not_hasKey {β : Type} {l : List (String × β)} {n : String} (v : β)
    (h : hasKey l n = false) : (setKey l n v).map Prod.fst = l.map Prod.fst ++ [n] := by
  simp [setKey, h]

theorem nodup_keys_setKey {β : Type} {l : List (String × β)} {n : String} (v : β)
    (h : (l.map Prod.fst).Nodup) : ((setKey l n v).map Prod.fst).Nodup := by
  by_cases hk : hasKey l n = true
  · rw [map_fst_setKey_of_hasKey v hk]; exact h
  · rw [Bool.not_eq_true] at hk
    rw [map_fst_setKey_of_not_hasKey v hk]
    rw [hasKey_eq_false_iff] at hk
    refine List.Nodup.append h (List.nodup_singleton n) ?_
    intro a ha hb
    simp only [List.mem_map] at ha
    obtain ⟨p, hp, hfst⟩ := ha
    simp only [List.mem_singleton] at hb
    exact hk p hp (by rw [hfst, hb])

theorem lookupKey_eq_some_of_mem {β : Type} {l : List (String × β)} {n : String} {v : β}
    (hnd : (l.map Prod.fst).Nodup) (h : (n, v) ∈ l) : lookupKey l n = some v := by
  induction l with
  | nil => simp at h
  | cons p l ih =>
      rcases List.mem_cons.1 h with rfl | hm
      · simp [lookupKey_cons]
      · have hp : p.1 ≠ n := by
          intro hc
          have hmem : n ∈ l.map Prod.fst := List.mem_map.mpr ⟨(n, v), hm, rfl⟩
          simp only [List.map_cons, List.nodup_cons, hc] at hnd
          exact hnd.1 hmem
        rw [lookupKey_cons, if_neg hp]
        have hnd2 : (l.map Prod.fst).Nodup := by
          simp only [List.map_cons, List.nodup_cons] at hnd
          exact hnd.2
        exact ih hnd2 hm

theorem mem_of_lookupKey_eq_some {β : Type} {l : List (String × β)} {n : String} {v : β}
    (h : lookupKey l n = some v) : (n, v) ∈ l := by
  unfold lookupKey at h
  cases hf : l.find? (fun p => decide (p.1 = n)) with
  | none => rw [hf] at h; exact Option.noConfusion h
  | some p =>
      rw [hf] at h
      have hv : p.2 = v := by simpa using h
      have hmem := List.mem_of_find?_eq_some hf
      have hkey := List.find?_some hf
      simp only [decide_eq_true_eq] at hkey
      have : (n, v) = p := by
        rw [← hkey, ← hv]
      rw [this]
      exact hmem

/-! ## Lemmas: `uniques` -/

theorem mem_uniques {l : List String} {x : String} : x ∈ uniques l ↔ x ∈ l := by
  induction l with
  | nil => simp [uniques]
  | cons y ys ih =>
      by_cases hxy : x = y
      · subst hxy; simp [uniques]
      · simp [uniques, List.mem_filter, hxy, ih]

theorem nodup_uniques (l : List String) : (uniques l).Nodup := by
  induction l with
  | nil => simp [uniques]
  | cons y ys ih =>
      rw [uniques, List.nodup_cons]
      constructor
      · intro hmem
        simp [List.mem_filter] at hmem
      · exact List.Nodup.filter _ ih

theorem toFinset_uniques (l : List String) : (uniques l).toFinset = l.toFinset := by
  induction l with
  | nil => rfl
  | cons y ys ih =>
      ext a
      by_cases hay : a = y
      · subst hay
        simp [uniques]
      · simp [uniques, List.mem_toFinset, List.mem_filter, hay, ← ih, mem_uniques]

theorem length_uniques (l : List String) : (uniques l).length = l.toFinset.card := by
  rw [← toFinset_uniques, List.toFinset_card_of_nodup (nodup_uniques l)]

theorem nodup_tissueTypes (rows : List Row) : (tissueTypes rows).Nodup :=
  nodup_uniques _

/-! ## Lemmas: basic graph operations -/

theorem nodes_addEdge (g : Graph) (u v : String) (w : ℚ) :
    (addEdge g u v w).nodes = g.nodes := by
  unfold addEdge; split <;> rfl

theorem edges_addNode (g : Graph) (n : String) (d : NodeData) :
    (addNode g n d).edges = g.edges := rfl

theorem nodeData_addNode_self (g : Graph) (n : String) (d : NodeData) :
    nodeData (addNode g n d) n = some d :=
  lookupKey_setKey_self g.nodes n d

theorem nodeData_addNode_of_ne (g : Graph) {m n : String} (d : NodeData) (h : m ≠ n) :
    nodeData (addNode g n d) m = nodeData g m :=
  lookupKey_setKey_of_ne g.nodes d h

theorem nodeData_addEdge (g : Graph) (u v : String) (w : ℚ) (n : String) :
    nodeData (addEdge g u v w) n = nodeData g n := by
  unfold nodeData
  rw [nodes_addEdge]

theorem hasNode_eq_false_iff_nodeData {g : Graph} {n : String} :
    hasNode g n = false ↔ nodeData g n = none := by
  constructor
  · exact fun h => lookupKey_eq_none_of_hasKey_eq_false h
  · intro h
    cases hc : hasNode g n with
    | false => rfl
    | true =>
        have hs := @lookupKey_isSome_of_hasKey _ g.nodes n hc
        rw [show lookupKey g.nodes n = nodeData g n from rfl, h] at hs
        exact Bool.noConfusion hs

theorem nodeData_processRow_preserved {g : Graph} {n : String} {d : NodeData}
    (h : nodeData g n = some d) (t : String) (r : Row) :
    nodeData (processRow t g r) n = some d := by
  unfold processRow
  cases hg : hasNode g r.gene with
  | true =>
      simp only [hg, if_true, nodeData_addEdge]
      exact h
  | false =>
      have hne : n ≠ r.gene := by
        intro hc
        rw [hasNode_eq_false_iff_nodeData] at hg
        rw [hc, hg] at h
        exact Option.noConfusion h
      simp only [hg, Bool.false_eq_true, if_false, nodeData_addEdge]
      rw [nodeData_addNode_of_ne g _ hne]
      exact h

theorem nodeData_processPair_preserved {g : Graph} {n : String} {d : NodeData}
    (h : nodeData g n = some d) (p : String × Row) :
    nodeData (processPair g p) n = some d :=
  nodeData_processRow_preserved h p.1 p.2

/-! ## Lemmas: phase 1 (tissue nodes and central edges) -/

theorem hasKey_iff_mem_map_fst {β : Type} {l : List (String × β)} {n : String} :
    hasKey l n = true ↔ n ∈ l.map Prod.fst := by
  simp only [hasKey, List.any_eq_true, decide_eq_true_eq, List.mem_map]

theorem updateKey_eq_of_hasKey_eq_false {β : Type} {l : List (String × β)} {t : String}
    (v : β) (h : hasKey l t = false) : updateKey l t v = l := by
  induction l with
  | nil => rfl
  | cons p l ih =>
      rw [hasKey_cons] at h
      simp only [Bool.or_eq_false_iff, decide_eq_false_iff_not] at h
      simp only [updateKey, List.map_cons, if_neg h.1]
      rw [show List.map (fun p => if p.1 = t then (t, v) else p) l = updateKey l t v from rfl]
      rw [ih h.2]

theorem nodes_addTissue (rows : List Row) (central : String) (g : Graph) (t : String) :
    (addTissue rows central g t).nodes
      = setKey g.nodes t (NodeData.tissue (tissueGeneCount rows t)) := by
  unfold addTissue
  rw [nodes_addEdge]
  rfl

theorem nodeData_addTissue_self (rows : List Row) (central : String) (g : Graph) (t : String) :
    nodeData (addTissue rows central g t) t
      = some (NodeData.tissue (tissueGeneCount rows t)) := by
  unfold nodeData
  rw [nodes_addTissue]
  exact lookupKey_setKey_self _ _ _

theorem nodeData_addTissue_of_ne (rows : List Row) (central : String) (g : Graph)
    {m t : String} (h : m ≠ t) :
    nodeData (addTissue rows central g t) m = nodeData g m := by
  unfold nodeData
  rw [nodes_addTissue]
  exact lookupKey_setKey_of_ne _ _ h

theorem foldl_addTissue_nodeData_of_not_mem (rows : List Row) (central : String) :
    ∀ (ts : List String) (g : Graph) {n : String}, n ∉ ts →
      nodeData (ts.foldl (addTissue rows central) g) n = nodeData g n := by
  intro ts
  induction ts with
  | nil => intro g n _; rfl
  | cons t ts ih =>
      intro g n hn
      rw [List.foldl_cons]
      have h1 : n ∉ ts := fun hc => hn (List.mem_cons_of_mem t hc)
      have h2 : n ≠ t := fun hc => hn (hc ▸ List.mem_cons_self t ts)
      rw [ih _ h1, nodeData_addTissue_of_ne rows central g h2]

theorem foldl_addTissue_nodeData_of_mem (rows : List Row) (central : String) :
    ∀ (ts : List String) (g : Graph) {t : String}, ts.Nodup → t ∈ ts →
      nodeData (ts.foldl (addTissue rows central) g) t
        = some (NodeData.tissue (tissueGeneCount rows t)) := by
  intro ts
  induction ts with
  | nil => intro g t _ h; simp at h
  | cons s ts ih =>
      intro g t hnd hmem
      rw [List.foldl_cons]
      rcases List.mem_cons.1 hmem with rfl | hts
      · have hnot : t ∉ ts := (List.nodup_cons.1 hnd).1
        rw [foldl_addTissue_nodeData_of_not_mem rows central ts _ hnot]
        exact nodeData_addTissue_self rows central g t
      · exact ih _ (List.nodup_cons.1 hnd).2 hts

theorem nodeData_phase1Graph_tissue (rows : List Row) (central : String) {t : String}
    (ht : t ∈ tissueTypes rows) :
    nodeData (phase1Graph rows central) t
      = some (NodeData.tissue (tissueGeneCount rows t)) :=
  foldl_addTissue_nodeData_of_mem rows central _ _ (nodup_tissueTypes rows) ht

theorem nodeData_phase1Graph_central (rows : List Row) (central : String)
    (h : central ∉ tissueTypes rows) :
    nodeData (phase1Graph rows central) central = some NodeData.central := by
  unfold phase1Graph
  rw [foldl_addTissue_nodeData_of_not_mem rows central _ _ h]
  simp [nodeData, lookupKey_cons]

theorem hasNode_addTissue_imp (rows : List Row) (central : String) (g : Graph)
    {n t : String} (h : hasNode (addTissue rows central g t) n = true) :
    hasNode g n = true ∨ n = t := by
  unfold hasNode at h ⊢
  rw [nodes_addTissue] at h
  rw [hasKey_iff_mem_map_fst] at h
  by_cases hk : hasKey g.nodes t = true
  · rw [map_fst_setKey_of_hasKey _ hk] at h
    exact Or.inl (hasKey_iff_mem_map_fst.2 h)
  · rw [Bool.not_eq_true] at hk
    rw [map_fst_setKey_of_not_hasKey _ hk, List.mem_append] at h
    rcases h with h | h
    · exact Or.inl (hasKey_iff_mem_map_fst.2 h)
    · simp only [List.mem_singleton] at h
      exact Or.inr h

theorem hasNode_phase1Graph_imp (rows : List Row) (central : String) {n : String}
    (h : hasNode (phase1Graph rows central) n = true) :
    n = central ∨ n ∈ tissueTypes rows := by
  unfold phase1Graph at h
  suffices hgen : ∀ (ts : List String) (g : Graph),
      hasNode (ts.foldl (addTissue rows central) g) n = true →
        hasNode g n = true ∨ n ∈ ts by
    rcases hgen _ _ h with hg | hts
    · left
      unfold hasNode at hg
      rw [hasKey_iff_mem_map_fst] at hg
      simpa using hg
    · exact Or.inr hts
  intro ts
  induction ts with
  | nil => intro g hg; exact Or.inl hg
  | cons t ts ih =>
      intro g hg
      rw [List.foldl_cons] at hg
      rcases ih _ hg with hg2 | hts
      · rcases hasNode_addTissue_imp rows central g hg2 with hg3 | rfl
        · exact Or.inl hg3
        · exact Or.inr (List.mem_cons_self _ _)
      · exact Or.inr (List.mem_cons_of_mem _ hts)

/-! ## Lemmas: tissue-node counting (claim C5) -/

theorem length_filter_updateKey_central_to_tissue
    {l : List (String × NodeData)} {t : String}
    (hnd : (l.map Prod.fst).Nodup) (hl : lookupKey l t = some NodeData.central)
    (c : ℕ) :
    ((updateKey l t (NodeData.tissue c)).filter (fun p => isTissueData p.2)).length
      = (l.filter (fun p => isTissueData p.2)).length + 1 := by
  induction l with
  | nil => simp [lookupKey] at hl
  | cons p l ih =>
      rw [lookupKey_cons] at hl
      by_cases hp : p.1 = t
      · rw [if_pos hp] at hl
        have hpd : p.2 = NodeData.central := by simpa using hl
        have hknot : hasKey l t = false := by
          rw [List.map_cons, List.nodup_cons] at hnd
          cases hk : hasKey l t with
          | false => rfl
          | true =>
              rw [hasKey_iff_mem_map_fst] at hk
              exact absurd (hp ▸ hk) hnd.1
        simp only [updateKey, List.map_cons, if_pos hp]
        rw [show List.map (fun q => if q.1 = t then (t, NodeData.tissue c) else q) l
              = updateKey l t (NodeData.tissue c) from rfl]
        rw [updateKey_eq_of_hasKey_eq_false _ hknot]
        rw [List.filter_cons, List.filter_cons]
        simp [hpd, isTissueData]
      · rw [if_neg hp] at hl
        have hnd2 : (l.map Prod.fst).Nodup := by
          rw [List.map_cons, List.nodup_cons] at hnd
          exact hnd.2
        simp only [updateKey, List.map_cons, if_neg hp]
        rw [show List.map (fun q => if q.1 = t then (t, NodeData.tissue c) else q) l
              = updateKey l t (NodeData.tissue c) from rfl]
        rw [List.filter_cons, List.filter_cons]
        by_cases hpt : isTissueData p.2 = true
        · simp only [hpt, if_true, List.length_cons]
          rw [ih hnd2 hl]
        · simp only [hpt, Bool.false_eq_true, if_false]
          exact ih hnd2 hl

theorem tissueNodeCount_addTissue (rows : List Row) (central : String) (g : Graph)
    (t : String) (hnd : (g.nodes.map Prod.fst).Nodup)
    (h : nodeData g t = none ∨ nodeData g t = some NodeData.central) :
    tissueNodeCount (addTissue rows central g t) = tissueNodeCount g + 1 := by
  unfold tissueNodeCount
  rw [nodes_addTissue]
  unfold setKey
  cases hk : hasKey g.nodes t with
  | false =>
      simp only [Bool.false_eq_true, if_false]
      rw [List.filter_append, List.length_append]
      simp [isTissueData]
  | true =>
      simp only [if_true]
      have hsome := lookupKey_isSome_of_hasKey hk
      rcases h with h | h
      · rw [show lookupKey g.nodes t = nodeData g t from rfl, h] at hsome
        exact Bool.noConfusion hsome
      · exact length_filter_updateKey_central_to_tissue hnd h _

theorem nodup_keys_addTissue (rows : List Row) (central : String) (g : Graph) (t : String)
    (hnd : (g.nodes.map Prod.fst).Nodup) :
    ((addTissue rows central g t).nodes.map Prod.fst).Nodup := by
  rw [nodes_addTissue]
  exact nodup_keys_setKey _ hnd

theorem phase1_tissueNodeCount (rows : List Row) (central : String) :
    ∀ (ts : List String) (g : Graph), ts.Nodup → (g.nodes.map Prod.fst).Nodup →
      (∀ s ∈ ts, nodeData g s = none ∨ nodeData g s = some NodeData.central) →
      tissueNodeCount (ts.foldl (addTissue rows central) g)
        = tissueNodeCount g + ts.length := by
  intro ts
  induction ts with
  | nil => intro g _ _ _; rfl
  | cons t ts ih =>
      intro g hnd hkeys hdata
      rw [List.foldl_cons]
      have hrest : ∀ s ∈ ts, nodeData (addTissue rows central g t) s = none ∨
          nodeData (addTissue rows central g t) s = some NodeData.central := by
        intro s hs
        have hst : s ≠ t := by
          intro hc
          exact (List.nodup_cons.1 hnd).1 (hc ▸ hs)
        rw [nodeData_addTissue_of_ne rows central g hst]
        exact hdata s (List.mem_cons_of_mem _ hs)
      rw [ih _ (List.nodup_cons.1 hnd).2 (nodup_keys_addTissue rows central g t hkeys) hrest]
      rw [tissueNodeCount_addTissue rows central g t hkeys
            (hdata t (List.mem_cons_self _ _))]
      simp [List.length_cons]
      omega

theorem tissueNodeCount_processRow (t : String) (g : Graph) (r : Row) :
    tissueNodeCount (processRow t g r) = tissueNodeCount g := by
  unfold processRow tissueNodeCount
  cases hg : hasNode g r.gene with
  | true =>
      simp only [hg, if_true]
      rw [nodes_addEdge]
  | false =>
      simp only [hg, Bool.false_eq_true, if_false]
      rw [nodes_addEdge]
      unfold addNode setKey
      unfold hasNode at hg
      simp only [hg, Bool.false_eq_true, if_false]
      rw [List.filter_append, List.length_append]
      simp [isTissueData]

theorem tissueNodeCount_processTissueRows (rows : List Row) (t : String) (g : Graph) :
    tissueNodeCount (processTissueRows rows t g) = tissueNodeCount g := by
  unfold processTissueRows
  refine List.foldlRecOn (motive := fun g2 => tissueNodeCount g2 = tissueNodeCount g) _ _ _ rfl ?_
  intro g2 hg2 r _
  rw [tissueNodeCount_processRow t g2 r, hg2]

theorem tissueNodeCount_buildGraph (rows : List Row) (central : String) :
    tissueNodeCount (buildGraph rows central) = tissueNodeCount (phase1Graph rows central) := by
  unfold buildGraph
  refine List.foldlRecOn
    (motive := fun g2 => tissueNodeCount g2 = tissueNodeCount (phase1Graph rows central))
    _ _ _ rfl ?_
  intro g2 hg2 t _
  rw [tissueNodeCount_processTissueRows rows t g2, hg2]

/-- Claim C5: the number of tissue-typed nodes of the output graph equals the
number of distinct category labels among the rows surviving the score
filter. -/
theorem c5_category_node_count (rows : List Row) (central : String) :
    tissueNodeCount (buildGraph rows central)
      = ((filteredRows rows).map Row.tumor).toFinset.card := by
  rw [tissueNodeCount_buildGraph]
  unfold phase1Graph
  rw [phase1_tissueNodeCount rows central _ _ (nodup_tissueTypes rows)
        (by simp) ?_]
  · have h0 : tissueNodeCount { nodes := [(central, NodeData.central)], edges := [] } = 0 := by
      simp [tissueNodeCount, isTissueData]
    rw [h0]
    rw [show (tissueTypes rows).length = ((filteredRows rows).map Row.tumor).toFinset.card
          from length_uniques _]
    omega
  · intro s _
    by_cases hs : s = central
    · right
      subst hs
      simp [nodeData, lookupKey_cons]
    · left
      have h2 : central ≠ s := fun hc => hs hc.symm
      simp [nodeData, lookupKey_cons, h2, lookupKey_nil]

/-! ## Claim C10: the serialized gene_count attribute -/

theorem nodeData_processTissueRows_preserved (rows : List Row) (t : String) {g : Graph}
    {n : String} {d : NodeData} (h : nodeData g n = some d) :
    nodeData (processTissueRows rows t g) n = some d := by
  unfold processTissueRows
  refine List.foldlRecOn (motive := fun g2 => nodeData g2 n = some d) _ _ _ h ?_
  intro g2 hg2 r _
  exact nodeData_processRow_preserved hg2 t r

theorem nodeData_buildGraph_of_phase1 (rows : List Row) (central : String) {n : String}
    {d : NodeData} (h : nodeData (phase1Graph rows central) n = some d) :
    nodeData (buildGraph rows central) n = some d := by
  unfold buildGraph
  refine List.foldlRecOn (motive := fun g2 => nodeData g2 n = some d) _ _ _ h ?_
  intro g2 hg2 t _
  exact nodeData_processTissueRows_preserved rows t hg2

/-- Claim C10: for every category label (other than the central id, whose
serialization is special-cased), the serialized tissue node carries
`gene_count` equal to the number of filtered rows with that label — counted
before the 150-cap and before gene-name deduplication. -/
theorem c10_gene_count_attribute (rows : List Row) (central : String)
    (noise : ℕ → ℝ × ℝ) (t : String) (ht : t ∈ tissueTypes rows) (hc : t ≠ central) :
    ∃ nd ∈ serializeNodes rows central noise,
      nd.id = t ∧ nd.node_type = "tissue" ∧
        nd.gene_count = some (tissueGeneCount rows t) := by
  have hdata : nodeData (buildGraph rows central) t
      = some (NodeData.tissue (tissueGeneCount rows t)) :=
    nodeData_buildGraph_of_phase1 rows central (nodeData_phase1Graph_tissue rows central ht)
  have hmem : (t, NodeData.tissue (tissueGeneCount rows t)) ∈ (buildGraph rows central).nodes :=
    mem_of_lookupKey_eq_some hdata
  refine ⟨tissueEntry (tissueTypes rows) (buildPositions rows central noise) t
      (tissueGeneCount rows t), ?_, rfl, rfl, rfl⟩
  unfold serializeNodes serializeNodesOf
  refine List.mem_cons_of_mem _ ?_
  refine List.mem_filterMap.2 ⟨(t, NodeData.tissue (tissueGeneCount rows t)), hmem, ?_⟩
  simp [hc]

theorem c10_gene_count_attribute_witness :
    "T" ∈ tissueTypes [⟨"A", "T", mkRat 9 10⟩] ∧
      ∃ nd ∈ serializeNodes [⟨"A", "T", mkRat 9 10⟩] "GCH1" zeroNoise,
        nd.id = "T" ∧ nd.node_type = "tissue" ∧
          nd.gene_count = some (tissueGeneCount [⟨"A", "T", mkRat 9 10⟩] "T") :=
  ⟨by decide,
    c10_gene_count_attribute [⟨"A", "T", mkRat 9 10⟩] "GCH1" zeroNoise "T"
      (by decide) (by decide)⟩

end WebNetwork

namespace WebNetwork

/-! ## Claim C8: errors yield a null result and no output file -/

/-- Claim C8: when the input table is missing the required `PCC` column, the
pipeline raises, the catch-all returns `(None, None)`, and no file content is
produced — callers receive no partial graph and no partial file.  (The
printed trace itself is I/O and is outside the embedding.) -/
theorem c8_missing_column_no_output (tbl : Table) (central : String)
    (noise : ℕ → ℝ × ℝ) (h : "PCC" ∉ tbl.columns) :
    createWebNetwork tbl central noise = (none, none) := by
  unfold createWebNetwork createWebNetworkE
  simp [h]

theorem c8_missing_column_no_output_witness :
    "PCC" ∉ (Table.mk ["Gene Symbol", "Tumor"] []).columns ∧
      createWebNetwork (Table.mk ["Gene Symbol", "Tumor"] []) "GCH1" zeroNoise
        = (none, none) :=
  ⟨by decide,
    c8_missing_column_no_output (Table.mk ["Gene Symbol", "Tumor"] []) "GCH1" zeroNoise
      (by decide)⟩

end WebNetwork

namespace WebNetwork

/-! ## Claim C9: item node identity and first-insertion-wins -/

theorem processTissueRows_eq_foldl_pairs (rows : List Row) (t : String) (g : Graph) :
    processTissueRows rows t g
      = ((topRows rows t).map (fun r => (t, r))).foldl processPair g := by
  unfold processTissueRows
  rw [List.foldl_map]
  rfl

theorem buildGraph_eq_foldl_retainedPairs (rows : List Row) (central : String) :
    buildGraph rows central
      = (retainedPairs rows).foldl processPair (phase1Graph rows central) := by
  unfold buildGraph retainedPairs
  rw [List.foldl_flatten, List.foldl_map]
  congr 1
  funext g t
  rw [processTissueRows_eq_foldl_pairs]

theorem nodeData_processRow_of_ne {g : Graph} {n : String} (t : String) (r : Row)
    (h : n ≠ r.gene) : nodeData (processRow t g r) n = nodeData g n := by
  unfold processRow
  cases hg : hasNode g r.gene with
  | true => simp only [hg, if_true, nodeData_addEdge]
  | false =>
      simp only [hg, Bool.false_eq_true, if_false, nodeData_addEdge]
      exact nodeData_addNode_of_ne g _ h

theorem nodeData_foldl_processPair_preserved {g : Graph} {n : String} {d : NodeData}
    (L : List (String × Row)) (h : nodeData g n = some d) :
    nodeData (L.foldl processPair g) n = some d := by
  refine List.foldlRecOn (motive := fun g2 => nodeData g2 n = some d) _ _ _ h ?_
  intro g2 hg2 q _
  exact nodeData_processPair_preserved hg2 q

theorem foldl_processPair_first_gene {gname : String} :
    ∀ (L : List (String × Row)) (g : Graph) (q : String × Row),
      nodeData g gname = none →
      L.find? (fun p => decide (p.2.gene = gname)) = some q →
      nodeData (L.foldl processPair g) gname = some (NodeData.gene q.2.pcc q.1) := by
  intro L
  induction L with
  | nil => intro g q _ h; simp at h
  | cons p L ih =>
      intro g q hnone hfind
      rw [List.foldl_cons]
      by_cases hp : p.2.gene = gname
      · rw [List.find?_cons_of_pos _ (by simpa using hp)] at hfind
        have hq : q = p := by simpa using hfind.symm
        subst hq
        have hstep : nodeData (processPair g q) gname
            = some (NodeData.gene q.2.pcc q.1) := by
          unfold processPair processRow
          have hno : hasNode g q.2.gene = false := by
            rw [hasNode_eq_false_iff_nodeData, hp]
            exact hnone
          simp only [hno, Bool.false_eq_true, if_false, nodeData_addEdge]
          rw [← hp]
          exact nodeData_addNode_self g q.2.gene (NodeData.gene q.2.pcc q.1)
        exact nodeData_foldl_processPair_preserved L hstep
      · rw [List.find?_cons_of_neg _ (by simpa using hp)] at hfind
        have hnone2 : nodeData (processPair g p) gname = none := by
          unfold processPair
          rw [nodeData_processRow_of_ne p.1 p.2 (fun hc => hp hc.symm)]
          exact hnone
        exact ih _ q hnone2 hfind

/-- Claim C9: an item node is keyed by the gene name alone; when the same
gene name recurs (across categories, or within one), the stored `pcc` and
`tissue` attributes are those of the first retained row inserted, and later
insertions do not change them.  The gene name must not collide with the
central id or a category label, since those names never become item
nodes. -/
theorem c9_first_insertion_wins (rows : List Row) (central : String)
    (gname t : String) (p : ℚ)
    (hc : gname ≠ central) (ht : gname ∉ tissueTypes rows)
    (hf : firstRetainedFor rows gname = some (t, p)) :
    nodeData (buildGraph rows central) gname = some (NodeData.gene p t) := by
  unfold firstRetainedFor at hf
  cases hq : (retainedPairs rows).find? (fun q => decide (q.2.gene = gname)) with
  | none => rw [hq] at hf; exact Option.noConfusion hf
  | some q =>
      rw [hq] at hf
      have hqe : (q.1, q.2.pcc) = (t, p) := by simpa using hf
      have h1 : q.1 = t := congrArg Prod.fst hqe
      have h2 : q.2.pcc = p := congrArg Prod.snd hqe
      have hnone : nodeData (phase1Graph rows central) gname = none := by
        rw [← hasNode_eq_false_iff_nodeData]
        cases hn : hasNode (phase1Graph rows central) gname with
        | false => rfl
        | true =>
            rcases hasNode_phase1Graph_imp rows central hn with rfl | hmem
            · exact absurd rfl hc
            · exact absurd hmem ht
      rw [buildGraph_eq_foldl_retainedPairs]
      rw [foldl_processPair_first_gene _ _ q hnone hq, h1, h2]

theorem c9_first_insertion_wins_witness :
    firstRetainedFor [⟨"G", "T1", mkRat 9 10⟩, ⟨"G", "T2", mkRat 17 20⟩] "G"
        = some ("T1", mkRat 9 10) ∧
      nodeData (buildGraph [⟨"G", "T1", mkRat 9 10⟩, ⟨"G", "T2", mkRat 17 20⟩] "GCH1") "G"
        = some (NodeData.gene (mkRat 9 10) "T1") :=
  ⟨by decide,
    c9_first_insertion_wins [⟨"G", "T1", mkRat 9 10⟩, ⟨"G", "T2", mkRat 17 20⟩] "GCH1"
      "G" "T1" (mkRat 9 10) (by decide) (by decide) (by decide)⟩

end WebNetwork

namespace WebNetwork

/-! ## Lemmas: the position dict -/

theorem lookupPos_assign_self (ps : List (String × Pos)) (k : String) (v : Pos) :
    lookupPos (assign ps k v) k = v := by
  unfold lookupPos assign
  rw [lookupKey_setKey_self]
  rfl

theorem lookupPos_assign_of_ne (ps : List (String × Pos)) {m k : String} (v : Pos)
    (h : m ≠ k) : lookupPos (assign ps k v) m = lookupPos ps m := by
  unfold lookupPos assign
  rw [lookupKey_setKey_of_ne _ _ h]

theorem snd_mem_of_mem_enumFrom {α : Type} :
    ∀ (l : List α) (k : ℕ) (p : ℕ × α), p ∈ l.enumFrom k → p.2 ∈ l := by
  intro l
  induction l with
  | nil => intro k p h; simp [List.enumFrom] at h
  | cons x xs ih =>
      intro k p h
      rw [List.enumFrom] at h
      rcases List.mem_cons.1 h with rfl | h2
      · exact List.mem_cons_self _ _
      · exact List.mem_cons_of_mem _ (ih _ p h2)

theorem lookupPos_foldl_assign_enum_of_not_mem (l : List String) (k : ℕ)
    (ps0 : List (String × Pos)) {n : String} (h : n ∉ l) :
    lookupPos ((l.enumFrom k).foldl (fun ps p => assign ps p.2 (circlePos p.1)) ps0) n
      = lookupPos ps0 n := by
  refine List.foldlRecOn (motive := fun ps => lookupPos ps n = lookupPos ps0 n) _ _ _ rfl ?_
  intro ps hps p hp
  rw [lookupPos_assign_of_ne ps _ ?_, hps]
  intro hc
  exact h (hc ▸ snd_mem_of_mem_enumFrom l k p hp)

theorem lookupPos_foldl_assign_enum_get (l : List String) :
    ∀ (k : ℕ) (ps0 : List (String × Pos)) (i : ℕ) (hi : i < l.length), l.Nodup →
      lookupPos ((l.enumFrom k).foldl (fun ps p => assign ps p.2 (circlePos p.1)) ps0)
          (l.get ⟨i, hi⟩)
        = circlePos (k + i) := by
  induction l with
  | nil => intro k ps0 i hi _; simp at hi
  | cons t rest ih =>
      intro k ps0 i hi hnd
      rw [List.enumFrom, List.foldl_cons]
      cases i with
      | zero =>
          have hnot : t ∉ rest := (List.nodup_cons.1 hnd).1
          rw [show (t :: rest).get ⟨0, hi⟩ = t from rfl]
          rw [lookupPos_foldl_assign_enum_of_not_mem rest (k + 1) _ hnot]
          rw [lookupPos_assign_self]
          simp
      | succ j =>
          have hj : j < rest.length := by simpa using hi
          rw [show (t :: rest).get ⟨j + 1, hi⟩ = rest.get ⟨j, hj⟩ from rfl]
          rw [ih (k + 1) _ j hj (List.nodup_cons.1 hnd).2]
          congr 1
          omega

theorem lookupPos_placeTissues_of_not_mem (rows : List Row)
    (ps0 : List (String × Pos)) {n : String} (h : n ∉ tissueTypes rows) :
    lookupPos (placeTissues rows ps0) n = lookupPos ps0 n := by
  unfold placeTissues
  rw [show (tissueTypes rows).enum = (tissueTypes rows).enumFrom 0 from rfl]
  exact lookupPos_foldl_assign_enum_of_not_mem _ 0 ps0 h

theorem lookupPos_placeTissues_get (rows : List Row) (ps0 : List (String × Pos))
    (i : ℕ) (hi : i < (tissueTypes rows).length) :
    lookupPos (placeTissues rows ps0) ((tissueTypes rows).get ⟨i, hi⟩) = circlePos i := by
  unfold placeTissues
  rw [show (tissueTypes rows).enum = (tissueTypes rows).enumFrom 0 from rfl]
  rw [lookupPos_foldl_assign_enum_get _ 0 ps0 i hi (nodup_tissueTypes rows)]
  rw [Nat.zero_add]

theorem mem_retainedGeneNames_of_mem_top (rows : List Row) {t : String} {x : String}
    (ht : t ∈ tissueTypes rows) (hx : x ∈ (topIRows rows t).map (fun p => p.2.gene)) :
    x ∈ retainedGeneNames rows := by
  unfold retainedGeneNames
  rw [List.mem_flatten]
  exact ⟨(topIRows rows t).map (fun p => p.2.gene), List.mem_map.mpr ⟨t, ht, rfl⟩, hx⟩

theorem lookupPos_placeTissueGenes_of_not_mem (rows : List Row) (noise : ℕ → ℝ × ℝ)
    (t : String) (acc : List (String × Pos) × ℕ) {n : String}
    (h : n ∉ (topIRows rows t).map (fun p => p.2.gene)) :
    lookupPos (placeTissueGenes rows noise acc t).1 n = lookupPos acc.1 n := by
  unfold placeTissueGenes
  refine List.foldlRecOn
    (motive := fun (a : List (String × Pos) × ℕ) => lookupPos a.1 n = lookupPos acc.1 n)
    _ _ _ rfl ?_
  intro a ha p hp
  unfold placeGeneRow
  rw [lookupPos_assign_of_ne a.1 _ ?_, ha]
  intro hc
  exact h (hc ▸ List.mem_map.mpr ⟨p, hp, rfl⟩)

theorem lookupPos_genePhase_of_not_retained (rows : List Row) (noise : ℕ → ℝ × ℝ)
    (start : List (String × Pos) × ℕ) {n : String} (h : n ∉ retainedGeneNames rows) :
    lookupPos ((tissueTypes rows).foldl (placeTissueGenes rows noise) start).1 n
      = lookupPos start.1 n := by
  refine List.foldlRecOn
    (motive := fun (a : List (String × Pos) × ℕ) => lookupPos a.1 n = lookupPos start.1 n)
    _ _ _ rfl ?_
  intro a ha t htm
  rw [lookupPos_placeTissueGenes_of_not_mem rows noise t a ?_, ha]
  intro hc
  exact h (mem_retainedGeneNames_of_mem_top rows htm hc)

theorem lookupPos_buildPositions_central (rows : List Row) (central : String)
    (noise : ℕ → ℝ × ℝ) (h1 : central ∉ tissueTypes rows)
    (h2 : central ∉ retainedGeneNames rows) :
    lookupPos (buildPositions rows central noise) central = ((0 : ℝ), (0 : ℝ)) := by
  unfold buildPositions
  rw [lookupPos_genePhase_of_not_retained rows noise _ h2]
  rw [lookupPos_placeTissues_of_not_mem rows _ h1]
  rw [lookupPos_assign_self]

/-! ## Claim C7: golden-angle circle placement of category nodes -/

/-- Claim C7 (amended): the `i`-th category in first-seen order sits, in the
final position dict, at angle `i · π(3 − √5)` on the circle of radius 400 —
provided no retained gene shares the category's name (such a gene overwrites
the entry afterwards, dict identity being the name alone; see the
counterexample). -/
theorem c7_golden_angle_placement (rows : List Row) (central : String)
    (noise : ℕ → ℝ × ℝ) (i : ℕ) (hi : i < (tissueTypes rows).length)
    (hcol : (tissueTypes rows).get ⟨i, hi⟩ ∉ retainedGeneNames rows) :
    lookupPos (buildPositions rows central noise) ((tissueTypes rows).get ⟨i, hi⟩)
      = (400 * Real.cos (i * (Real.pi * (3 - Real.sqrt 5))),
         400 * Real.sin (i * (Real.pi * (3 - Real.sqrt 5)))) := by
  unfold buildPositions
  rw [lookupPos_genePhase_of_not_retained rows noise _ hcol]
  rw [lookupPos_placeTissues_get rows _ i hi]
  rfl

theorem c7_golden_angle_placement_witness :
    (0 < (tissueTypes [⟨"A", "T", mkRat 9 10⟩]).length) ∧
      lookupPos (buildPositions [⟨"A", "T", mkRat 9 10⟩] "GCH1" zeroNoise)
          ((tissueTypes [⟨"A", "T", mkRat 9 10⟩]).get ⟨0, by decide⟩)
        = (400 * Real.cos (((0 : ℕ) : ℝ) * (Real.pi * (3 - Real.sqrt 5))),
           400 * Real.sin (((0 : ℕ) : ℝ) * (Real.pi * (3 - Real.sqrt 5)))) :=
  ⟨by decide,
    c7_golden_angle_placement [⟨"A", "T", mkRat 9 10⟩] "GCH1" zeroNoise 0
      (by decide) (by decide)⟩

end WebNetwork

namespace WebNetwork

/-- Claim C7 counterexample: input `[("X", "X", 0.9)]` — a retained gene
named like its own category.  Category `X` is the 0-th first-seen category,
so the claim puts it at `(400·cos 0, 400·sin 0) = (400, 0)`; but the item
loop then overwrites `fixed_positions["X"]` with the gene cloud position,
whose x-coordinate is `400 + (50 + (1 − 0.9)·150) = 465 ≠ 400`. -/
theorem c7_counterexample :
    tissueTypes c7rows = ["X"] ∧
      (lookupPos (buildPositions c7rows "GCH1" zeroNoise) "X").1 = 465 ∧
      400 * Real.cos (((0 : ℕ) : ℝ) * (Real.pi * (3 - Real.sqrt 5))) = 400 ∧
      (465 : ℝ) ≠ 400 := by
  have hT : tissueTypes c7rows = ["X"] := by decide
  have htop : topIRows c7rows "X" = [(0, ⟨"X", "X", mkRat 9 10⟩)] := by decide
  have hps : lookupPos (buildPositions c7rows "GCH1" zeroNoise) "X"
      = genePos (circlePos 0) 0 1 (mkRat 9 10) 0 0 := by
    unfold buildPositions placeTissues placeTissueGenes
    rw [hT]
    simp only [List.enum, List.enumFrom, List.foldl_cons, List.foldl_nil]
    rw [htop]
    simp only [List.foldl_cons, List.foldl_nil, List.length_cons, List.length_nil]
    unfold placeGeneRow
    simp [assign, setKey, hasKey, updateKey, lookupPos, lookupKey, List.find?, List.any,
      zeroNoise]
  refine ⟨hT, ?_, ?_, by norm_num⟩
  · rw [hps]
    have e3 : ((mkRat 9 10 : ℚ) : ℝ) = 9/10 := by
      rw [Rat.mkRat_eq_div]; push_cast; norm_num
    have e1 : ((0 : ℕ) : ℝ) / ((1 : ℕ) : ℝ) * (2 * Real.pi) + (0 : ℝ) * 0.5 = 0 := by
      push_cast; ring
    have e2 : ((0 : ℕ) : ℝ) * goldenAngle = 0 := by push_cast; ring
    simp only [genePos, circlePos, circleRadius]
    rw [e1, e2, Real.cos_zero, e3]
    norm_num
  · rw [show ((0 : ℕ) : ℝ) * (Real.pi * (3 - Real.sqrt 5)) = 0 by push_cast; ring,
      Real.cos_zero]
    norm_num

end WebNetwork

namespace WebNetwork

/-! ## Claim C2: the serialized central node -/

/-- Claim C2 (amended): the serialized central entry always has `id` equal to
the configured parameter; its position is `(0, 0)` provided the central id is
not also a filtered category label and not a retained gene name (either
collision overwrites the `fixed_positions` entry, whose key is the name
alone). -/
theorem c2_central_identity_amended (rows : List Row) (central : String)
    (noise : ℕ → ℝ × ℝ) (h1 : central ∉ tissueTypes rows)
    (h2 : central ∉ retainedGeneNames rows) :
    ∃ nd, (serializeNodes rows central noise).head? = some nd ∧
      nd.id = central ∧ nd.node_type = "central" ∧ nd.x = 0 ∧ nd.y = 0 := by
  refine ⟨centralEntry central (buildPositions rows central noise), rfl, rfl, rfl, ?_, ?_⟩
  · show (lookupPos (buildPositions rows central noise) central).1 = 0
    rw [lookupPos_buildPositions_central rows central noise h1 h2]
  · show (lookupPos (buildPositions rows central noise) central).2 = 0
    rw [lookupPos_buildPositions_central rows central noise h1 h2]

theorem c2_central_identity_amended_witness :
    "GCH1" ∉ tissueTypes [⟨"A", "T", mkRat 9 10⟩] ∧
      ∃ nd, (serializeNodes [⟨"A", "T", mkRat 9 10⟩] "GCH1" zeroNoise).head? = some nd ∧
        nd.id = "GCH1" ∧ nd.node_type = "central" ∧ nd.x = 0 ∧ nd.y = 0 :=
  ⟨by decide,
    c2_central_identity_amended [⟨"A", "T", mkRat 9 10⟩] "GCH1" zeroNoise
      (by decide) (by decide)⟩

end WebNetwork

namespace WebNetwork

/-- Claim C2 counterexample: with input `[("g", "GCH1", 0.9)]` — a tissue
label equal to the central id — the serialized central entry sits at
`(400, 0)`, not `(0, 0)`: the tissue placement loop overwrites the
`fixed_positions["GCH1"]` entry. -/
theorem c2_counterexample :
    ∃ nd, (serializeNodes c2rows "GCH1" zeroNoise).head? = some nd ∧
      nd.id = "GCH1" ∧ nd.node_type = "central" ∧ nd.x ≠ 0 := by
  refine ⟨centralEntry "GCH1" (buildPositions c2rows "GCH1" zeroNoise), rfl, rfl, rfl, ?_⟩
  have hT : tissueTypes c2rows = ["GCH1"] := by decide
  have htop : topIRows c2rows "GCH1" = [(0, ⟨"g", "GCH1", mkRat 9 10⟩)] := by decide
  have hps : lookupPos (buildPositions c2rows "GCH1" zeroNoise) "GCH1" = circlePos 0 := by
    unfold buildPositions placeTissues placeTissueGenes
    rw [hT]
    simp only [List.enum, List.enumFrom, List.foldl_cons, List.foldl_nil]
    rw [htop]
    simp only [List.foldl_cons, List.foldl_nil]
    unfold placeGeneRow
    simp [assign, setKey, hasKey, updateKey, lookupPos, lookupKey, List.find?, List.any,
      zeroNoise]
  show (lookupPos (buildPositions c2rows "GCH1" zeroNoise) "GCH1").1 ≠ 0
  rw [hps]
  unfold circlePos circleRadius
  simp [Real.cos_zero]

end WebNetwork

namespace WebNetwork

/-! ## Claim C3: the item-placement angle -/

theorem c3_positions_eval :
    lookupPos (buildPositions c3rows "GCH1" zeroNoise) "A"
        = genePos (circlePos 0) 1 2 (mkRat 9 10) 0 0 ∧
      lookupPos (buildPositions c3rows "GCH1" zeroNoise) "T" = circlePos 0 := by
  have hT : tissueTypes c3rows = ["T"] := by decide
  have htop : topIRows c3rows "T"
      = [(1, ⟨"A", "T", mkRat 9 10⟩), (2, ⟨"B", "T", mkRat 17 20⟩)] := by decide
  constructor <;>
    · unfold buildPositions placeTissues placeTissueGenes
      rw [hT]
      simp only [List.enum, List.enumFrom, List.foldl_cons, List.foldl_nil]
      rw [htop]
      simp only [List.foldl_cons, List.foldl_nil, List.length_cons, List.length_nil]
      unfold placeGeneRow
      simp [assign, setKey, hasKey, updateKey, lookupPos, lookupKey, List.find?, List.any,
        zeroNoise]

/-- Claim C3 (code bug): gene `A` is the rank-0 element of tissue `T`'s
sorted, capped list of size 2, but `iterrows()` hands the loop the row's
original dataframe index 1, so the code places it at base angle
`(1/2)·2π = π` (x = 335) while the claimed formula — base angle
`(rank/n)·2π = 0` — puts it at x = 465.  All other formula pieces (base
distance, noise handling) agree; only the `idx` numerator differs. -/
theorem c3_code_divergence :
    (topIRows c3rows "T").head? = some (1, ⟨"A", "T", mkRat 9 10⟩) ∧
      (topIRows c3rows "T").length = 2 ∧
      (lookupPos (buildPositions c3rows "GCH1" zeroNoise) "A").1 = 335 ∧
      (specItemPos (lookupPos (buildPositions c3rows "GCH1" zeroNoise) "T")
          0 2 (mkRat 9 10) 0 0).1 = 465 ∧
      (335 : ℝ) ≠ 465 := by
  obtain ⟨hA, hT⟩ := c3_positions_eval
  have e3 : ((mkRat 9 10 : ℚ) : ℝ) = 9/10 := by
    rw [Rat.mkRat_eq_div]; push_cast; norm_num
  refine ⟨by decide, by decide, ?_, ?_, by norm_num⟩
  · rw [hA]
    have e1 : ((1 : ℕ) : ℝ) / ((2 : ℕ) : ℝ) * (2 * Real.pi) + (0 : ℝ) * 0.5
        = Real.pi := by push_cast; ring
    have e2 : ((0 : ℕ) : ℝ) * goldenAngle = 0 := by push_cast; ring
    simp only [genePos, circlePos, circleRadius]
    rw [e1, e2, Real.cos_pi, Real.cos_zero, e3]
    norm_num
  · rw [hT]
    have e1 : ((0 : ℕ) : ℝ) / ((2 : ℕ) : ℝ) * (2 * Real.pi) + (0 : ℝ) * 0.5
        = 0 := by push_cast; ring
    have e2 : ((0 : ℕ) : ℝ) * goldenAngle = 0 := by push_cast; ring
    simp only [specItemPos, genePos, circlePos, circleRadius]
    rw [e1, e2, Real.cos_zero, e3]
    norm_num

end WebNetwork

namespace WebNetwork

/-! ## Claim C4: sub-threshold rows leave no trace in the node/edge set -/

theorem filteredRows_congr_drop {l1 l2 : List Row} {r : Row} (h : r.pcc < threshold) :
    filteredRows (l1 ++ r :: l2) = filteredRows (l1 ++ l2) := by
  unfold filteredRows
  rw [List.filter_append, List.filter_append, List.filter_cons]
  have hr : decide (threshold ≤ r.pcc) = false := by
    simp [not_le.mpr h]
  rw [hr]
  simp

theorem buildGraph_congr {rows1 rows2 : List Row} (central : String)
    (hfil : filteredRows rows1 = filteredRows rows2) :
    buildGraph rows1 central = buildGraph rows2 central := by
  have h1 : tissueTypes rows1 = tissueTypes rows2 := by
    unfold tissueTypes; rw [hfil]
  have h2 : addTissue rows1 central = addTissue rows2 central := by
    funext g t
    unfold addTissue tissueGeneCount catRows
    rw [hfil]
  have h3 : ∀ t g, processTissueRows rows1 t g = processTissueRows rows2 t g := by
    intro t g
    unfold processTissueRows topRows catRows
    rw [hfil]
  unfold buildGraph phase1Graph
  rw [h1, h2]
  congr 1
  funext g t
  rw [h3]

theorem stripPos_tissueEntry (tissues : List String) (ps ps2 : List (String × Pos))
    (t : String) (c : ℕ) :
    stripPos (tissueEntry tissues ps t c) = stripPos (tissueEntry tissues ps2 t c) := rfl

theorem map_stripPos_serializeNodesOf (g : Graph) (tissues : List String)
    (ps ps2 : List (String × Pos)) (central : String) :
    (serializeNodesOf g tissues ps central).map stripPos
      = (serializeNodesOf g tissues ps2 central).map stripPos := by
  unfold serializeNodesOf
  rw [List.map_cons, List.map_cons]
  congr 1
  rw [List.map_filterMap, List.map_filterMap]
  congr 1
  funext nd
  by_cases h : nd.1 = central
  · simp [h]
  · cases hd : nd.2 with
    | central => simp [h]
    | tissue c => simp only [if_neg h]; rfl
    | gene p t => simp only [if_neg h]; rfl

/-- Claim C4: a row with score strictly below 0.8 contributes nothing to the
serialized node/edge set — removing it from the input leaves every
serialized node (up to coordinates, which shift with the surviving rows'
original indices) and every serialized edge unchanged. -/
theorem c4_subthreshold_rows_dropped (central : String) (noise : ℕ → ℝ × ℝ)
    (l1 l2 : List Row) (r : Row) (h : r.pcc < threshold) :
    (serializeNodes (l1 ++ r :: l2) central noise).map stripPos
        = (serializeNodes (l1 ++ l2) central noise).map stripPos
      ∧ serializeLinks (l1 ++ r :: l2) central = serializeLinks (l1 ++ l2) central := by
  have hfil := @filteredRows_congr_drop l1 l2 r h
  have hg := buildGraph_congr central hfil
  have ht : tissueTypes (l1 ++ r :: l2) = tissueTypes (l1 ++ l2) := by
    unfold tissueTypes; rw [hfil]
  constructor
  · unfold serializeNodes
    rw [hg, ht]
    exact map_stripPos_serializeNodesOf _ _ _ _ central
  · unfold serializeLinks
    rw [hg]

theorem c4_subthreshold_rows_dropped_witness :
    (⟨"B", "T", mkRat 1 2⟩ : Row).pcc < threshold ∧
      ((serializeNodes ([] ++ ⟨"B", "T", mkRat 1 2⟩ :: [⟨"A", "T", mkRat 9 10⟩])
            "GCH1" zeroNoise).map stripPos
          = (serializeNodes ([] ++ [⟨"A", "T", mkRat 9 10⟩]) "GCH1" zeroNoise).map stripPos
        ∧ serializeLinks ([] ++ ⟨"B", "T", mkRat 1 2⟩ :: [⟨"A", "T", mkRat 9 10⟩]) "GCH1"
          = serializeLinks ([] ++ [⟨"A", "T", mkRat 9 10⟩]) "GCH1") :=
  ⟨by decide,
    c4_subthreshold_rows_dropped "GCH1" zeroNoise [] [⟨"A", "T", mkRat 9 10⟩]
      ⟨"B", "T", mkRat 1 2⟩ (by decide)⟩

end WebNetwork

namespace WebNetwork

/-! ## Claim C6: edge weights -/

theorem edgeMatch_iff {u v a b : String} :
    edgeMatch u v a b = true ↔ (a = u ∧ b = v) ∨ (a = v ∧ b = u) := by
  simp [edgeMatch, Bool.and_eq_true, Bool.or_eq_true]

theorem edges_processRow (t : String) (g : Graph) (r : Row) :
    (processRow t g r).edges = (addEdge g r.gene t (r.pcc * 3)).edges ∨
      ((processRow t g r).edges
        = (addEdge (addNode g r.gene (NodeData.gene r.pcc t)) r.gene t (r.pcc * 3)).edges) := by
  unfold processRow
  cases hg : hasNode g r.gene with
  | true => left; simp [hg]
  | false => right; simp [hg]

theorem hasEdge_addNode (g : Graph) (n : String) (d : NodeData) (u v : String) :
    hasEdge (addNode g n d) u v = hasEdge g u v := by
  unfold hasEdge
  rw [edges_addNode]

theorem hasEdge_addEdge_mono {g : Graph} {u v : String} (a b : String) (w : ℚ)
    (h : hasEdge g u v = true) : hasEdge (addEdge g a b w) u v = true := by
  unfold addEdge
  unfold hasEdge at h
  rw [List.any_eq_true] at h
  obtain ⟨e, he, hm⟩ := h
  split
  · unfold hasEdge updateEdge
    rw [List.any_eq_true]
    by_cases hab : edgeMatch a b e.1 e.2.1 = true
    · exact ⟨(e.1, e.2.1, w), List.mem_map.mpr ⟨e, he, by rw [if_pos hab]⟩, hm⟩
    · refine ⟨e, List.mem_map.mpr ⟨e, he, ?_⟩, hm⟩
      rw [if_neg hab]
  · unfold hasEdge
    rw [List.any_eq_true]
    exact ⟨e, List.mem_append_left _ he, hm⟩

theorem hasEdge_processRow_mono {g : Graph} {u v : String} (t : String) (r : Row)
    (h : hasEdge g u v = true) : hasEdge (processRow t g r) u v = true := by
  unfold processRow
  cases hg : hasNode g r.gene with
  | true =>
      simp only [hg, if_true]
      exact hasEdge_addEdge_mono _ _ _ h
  | false =>
      simp only [hg, Bool.false_eq_true, if_false]
      refine hasEdge_addEdge_mono _ _ _ ?_
      rw [hasEdge_addNode]
      exact h

theorem edges_addTissue (rows : List Row) (central : String) (g : Graph) (t : String) :
    (addTissue rows central g t).edges = (addEdge g central t 5).edges := by
  unfold addTissue
  unfold addEdge
  rw [hasEdge_addNode, edges_addNode]
  split <;> rfl

theorem edges_phase1_foldl (rows : List Row) (central : String) :
    ∀ (ts : List String) (g : Graph), ts.Nodup →
      (∀ t ∈ ts, hasEdge g central t = false) →
      (ts.foldl (addTissue rows central) g).edges
        = g.edges ++ ts.map (fun t => (central, t, (5 : ℚ))) := by
  intro ts
  induction ts with
  | nil => intro g _ _; simp
  | cons t ts ih =>
      intro g hnd hnew
      rw [List.foldl_cons]
      have hte : (addTissue rows central g t).edges = g.edges ++ [(central, t, (5 : ℚ))] := by
        rw [edges_addTissue]
        unfold addEdge
        rw [hnew t (List.mem_cons_self _ _)]
        simp
      have hrest : ∀ s ∈ ts, hasEdge (addTissue rows central g t) central s = false := by
        intro s hs
        unfold hasEdge
        rw [hte, List.any_eq_false]
        intro e he
        rw [List.mem_append] at he
        rcases he with he | he
        · have := hnew s (List.mem_cons_of_mem _ hs)
          unfold hasEdge at this
          rw [List.any_eq_false] at this
          exact this e he
        · simp only [List.mem_singleton] at he
          subst he
          cases hm : edgeMatch central s central t with
          | false => simp
          | true =>
              exfalso
              rw [edgeMatch_iff] at hm
              rcases hm with ⟨_, h2⟩ | ⟨h1, h2⟩
              · have hts : t ∈ ts := by rw [h2]; exact hs
                exact (List.nodup_cons.1 hnd).1 hts
              · have hts : t ∈ ts := by rw [h2.trans h1]; exact hs
                exact (List.nodup_cons.1 hnd).1 hts
      rw [ih _ (List.nodup_cons.1 hnd).2 hrest]
      rw [hte]
      simp

theorem edges_phase1Graph (rows : List Row) (central : String) :
    (phase1Graph rows central).edges
      = (tissueTypes rows).map (fun t => (central, t, (5 : ℚ))) := by
  unfold phase1Graph
  rw [edges_phase1_foldl rows central _ _ (nodup_tissueTypes rows) ?_]
  · rfl
  · intro t _
    rfl

theorem mem_retainedPairs {rows : List Row} {q : String × Row}
    (h : q ∈ retainedPairs rows) :
    q.1 ∈ tissueTypes rows ∧ q.2 ∈ topRows rows q.1 := by
  unfold retainedPairs at h
  rw [List.mem_flatten] at h
  obtain ⟨l, hl, hq⟩ := h
  rw [List.mem_map] at hl
  obtain ⟨t, ht, rfl⟩ := hl
  rw [List.mem_map] at hq
  obtain ⟨r, hr, rfl⟩ := hq
  exact ⟨ht, hr⟩

end WebNetwork

namespace WebNetwork

theorem mem_retainedPairs_of {rows : List Row} {t : String} {r : Row}
    (ht : t ∈ tissueTypes rows) (hr : r ∈ topRows rows t) :
    (t, r) ∈ retainedPairs rows := by
  unfold retainedPairs
  rw [List.mem_flatten]
  exact ⟨(topRows rows t).map (fun r => (t, r)), List.mem_map.mpr ⟨t, ht, rfl⟩,
    List.mem_map.mpr ⟨r, hr, rfl⟩⟩

theorem edges_processRow_cases (t : String) (g : Graph) (r : Row) :
    (processRow t g r).edges = updateEdge g.edges r.gene t (r.pcc * 3)
      ∨ (processRow t g r).edges = g.edges ++ [(r.gene, t, r.pcc * 3)] := by
  unfold processRow addEdge
  cases hn : hasNode g r.gene <;> cases he : hasEdge g r.gene t <;>
    simp [hn, he, hasEdge_addNode, edges_addNode]

theorem edges_form_buildGraph (rows : List Row) (central : String)
    (hG : ∀ t ∈ tissueTypes rows, ∀ r ∈ topRows rows t,
      r.gene ∉ tissueTypes rows ∧ r.gene ≠ central) :
    ∀ e ∈ (buildGraph rows central).edges,
      (∃ t ∈ tissueTypes rows, e = (central, t, (5 : ℚ)))
        ∨ (∃ t ∈ tissueTypes rows, ∃ r ∈ topRows rows t, e = (r.gene, t, r.pcc * 3)) := by
  rw [buildGraph_eq_foldl_retainedPairs]
  refine List.foldlRecOn
    (motive := fun (g : Graph) => ∀ e ∈ g.edges,
      (∃ t ∈ tissueTypes rows, e = (central, t, (5 : ℚ)))
        ∨ (∃ t ∈ tissueTypes rows, ∃ r ∈ topRows rows t, e = (r.gene, t, r.pcc * 3)))
    _ _ _ ?_ ?_
  · intro e he
    rw [edges_phase1Graph rows central] at he
    rw [List.mem_map] at he
    obtain ⟨t, ht, rfl⟩ := he
    exact Or.inl ⟨t, ht, rfl⟩
  · intro g2 hg2 q hq e he
    obtain ⟨hqt, hqr⟩ := mem_retainedPairs hq
    obtain ⟨hq_nt, hq_nc⟩ := hG q.1 hqt q.2 hqr
    unfold processPair at he
    rcases edges_processRow_cases q.1 g2 q.2 with hcase | hcase
    · rw [hcase] at he
      unfold updateEdge at he
      rw [List.mem_map] at he
      obtain ⟨e0, he0, hdef⟩ := he
      by_cases hm : edgeMatch q.2.gene q.1 e0.1 e0.2.1 = true
      · rw [if_pos hm] at hdef
        rw [edgeMatch_iff] at hm
        rcases hm with ⟨ha, hb⟩ | ⟨ha, hb⟩
        · right
          refine ⟨q.1, hqt, q.2, hqr, ?_⟩
          rw [← hdef, ha, hb]
        · exfalso
          rcases hg2 e0 he0 with ⟨t, ht, he0e⟩ | ⟨t, ht, r, hr, he0e⟩
          · have hteq : t = q.2.gene := by rw [← hb, he0e]
            exact hq_nt (hteq ▸ ht)
          · have hrg : r.gene = q.1 := by rw [← ha, he0e]
            have := (hG t ht r hr).1
            exact this (hrg ▸ hqt)
      · rw [if_neg hm] at hdef
        rw [← hdef]
        exact hg2 e0 he0
    · rw [hcase, List.mem_append] at he
      rcases he with he | he
      · exact hg2 e he
      · simp only [List.mem_singleton] at he
        subst he
        exact Or.inr ⟨q.1, hqt, q.2, hqr, rfl⟩

theorem hasEdge_buildGraph_central (rows : List Row) (central : String)
    {t : String} (ht : t ∈ tissueTypes rows) :
    hasEdge (buildGraph rows central) central t = true := by
  rw [buildGraph_eq_foldl_retainedPairs]
  refine List.foldlRecOn (motive := fun (g : Graph) => hasEdge g central t = true) _ _ _ ?_ ?_
  · show hasEdge (phase1Graph rows central) central t = true
    unfold hasEdge
    rw [edges_phase1Graph rows central, List.any_eq_true]
    refine ⟨(central, t, (5 : ℚ)), List.mem_map.mpr ⟨t, ht, rfl⟩, ?_⟩
    exact edgeMatch_iff.mpr (Or.inl ⟨rfl, rfl⟩)
  · intro g2 hg2 q _
    exact hasEdge_processRow_mono q.1 q.2 hg2

/-- Claim C6 (amended): provided no retained gene name collides with the
central id or a category label, every central–category edge keeps weight 5,
and every other edge is the gene–tissue edge of some retained row `r` of
that tissue with weight `r.pcc × 3` (for duplicate rows of one gene within a
tissue, `r` is the last retained duplicate, whose weight overwrote the
earlier ones). -/
theorem c6_edge_weights_amended (rows : List Row) (central : String)
    (hG : ∀ t ∈ tissueTypes rows, ∀ r ∈ topRows rows t,
      r.gene ∉ tissueTypes rows ∧ r.gene ≠ central) :
    (∀ t ∈ tissueTypes rows, edgeWeight (buildGraph rows central) central t = some 5)
      ∧ ∀ e ∈ (buildGraph rows central).edges,
          (∃ t ∈ tissueTypes rows, e = (central, t, (5 : ℚ)))
            ∨ (∃ t ∈ tissueTypes rows, ∃ r ∈ topRows rows t, e = (r.gene, t, r.pcc * 3)) := by
  refine ⟨?_, edges_form_buildGraph rows central hG⟩
  intro t ht
  have hhe := hasEdge_buildGraph_central rows central ht
  unfold edgeWeight
  cases hf : (buildGraph rows central).edges.find?
      (fun e => edgeMatch central t e.1 e.2.1) with
  | none =>
      exfalso
      unfold hasEdge at hhe
      rw [List.any_eq_true] at hhe
      obtain ⟨e, he, hm⟩ := hhe
      rw [List.find?_eq_none] at hf
      exact hf e he hm
  | some e =>
      have hm := List.find?_some hf
      have hmem := List.mem_of_find?_eq_some hf
      rcases edges_form_buildGraph rows central hG e hmem with ⟨s, hs, rfl⟩ |
        ⟨s, hs, r, hr, rfl⟩
      · rfl
      · exfalso
        rw [edgeMatch_iff] at hm
        rcases hm with ⟨ha, _⟩ | ⟨ha, _⟩
        · exact (hG s hs r hr).2 ha
        · have hrt : r.gene = t := ha
          exact (hG s hs r hr).1 (by rw [hrt]; exact ht)

theorem c6_edge_weights_amended_witness :
    (∀ t ∈ tissueTypes [⟨"A", "T", mkRat 9 10⟩],
        ∀ r ∈ topRows [⟨"A", "T", mkRat 9 10⟩] t,
          r.gene ∉ tissueTypes [⟨"A", "T", mkRat 9 10⟩] ∧ r.gene ≠ "GCH1") ∧
      ((∀ t ∈ tissueTypes [⟨"A", "T", mkRat 9 10⟩],
          edgeWeight (buildGraph [⟨"A", "T", mkRat 9 10⟩] "GCH1") "GCH1" t = some 5)
        ∧ ∀ e ∈ (buildGraph [⟨"A", "T", mkRat 9 10⟩] "GCH1").edges,
            (∃ t ∈ tissueTypes [⟨"A", "T", mkRat 9 10⟩], e = ("GCH1", t, (5 : ℚ)))
              ∨ (∃ t ∈ tissueTypes [⟨"A", "T", mkRat 9 10⟩],
                  ∃ r ∈ topRows [⟨"A", "T", mkRat 9 10⟩] t, e = (r.gene, t, r.pcc * 3))) :=
  ⟨by decide,
    c6_edge_weights_amended [⟨"A", "T", mkRat 9 10⟩] "GCH1" (by decide)⟩

unseal Rat.mul in
/-- Claim C6 counterexample: with a single row whose gene name equals the
central id, the gene loop re-adds the already-present central–tissue edge,
overwriting its weight with `pcc × 3 = 2.7`, so a central–category edge does
not weigh 5. -/
theorem c6_counterexample :
    "T" ∈ tissueTypes c6rows ∧
      edgeWeight (buildGraph c6rows "GCH1") "GCH1" "T" = some (mkRat 27 10) ∧
      (mkRat 27 10 : ℚ) ≠ 5 := by
  refine ⟨by decide, by decide, by decide⟩

end WebNetwork

namespace WebNetwork

/-! ## Claim C1: infrastructure on neighbors and node types -/

theorem hasKey_setKey_mono {β : Type} {l : List (String × β)} {n k : String} (v : β)
    (h : hasKey l n = true) : hasKey (setKey l k v) n = true := by
  rw [hasKey_iff_mem_map_fst] at h ⊢
  by_cases hk : hasKey l k = true
  · rw [map_fst_setKey_of_hasKey v hk]; exact h
  · rw [Bool.not_eq_true] at hk
    rw [map_fst_setKey_of_not_hasKey v hk]
    exact List.mem_append_left _ h

theorem hasNode_addEdge (g : Graph) (u v : String) (w : ℚ) (n : String) :
    hasNode (addEdge g u v w) n = hasNode g n := by
  unfold hasNode
  rw [nodes_addEdge]

theorem hasNode_processRow_mono {g : Graph} {n : String} (t : String) (r : Row)
    (h : hasNode g n = true) : hasNode (processRow t g r) n = true := by
  unfold processRow
  cases hg : hasNode g r.gene with
  | true => simpa [hg, hasNode_addEdge] using h
  | false =>
      simp only [hg, Bool.false_eq_true, if_false, hasNode_addEdge]
      exact hasKey_setKey_mono _ h

theorem hasNode_processRow_gene (t : String) (g : Graph) (r : Row) :
    hasNode (processRow t g r) r.gene = true := by
  unfold processRow
  cases hg : hasNode g r.gene with
  | true => simp [hg, hasNode_addEdge]
  | false =>
      simp only [hg, Bool.false_eq_true, if_false, hasNode_addEdge]
      unfold hasNode addNode
      rw [hasKey_iff_mem_map_fst]
      rw [show (setKey g.nodes r.gene (NodeData.gene r.pcc t))
            = g.nodes ++ [(r.gene, NodeData.gene r.pcc t)] by
        unfold setKey
        unfold hasNode at hg
        rw [hg]
        simp]
      simp

theorem hasNode_processRow_imp {g : Graph} {n : String} {t : String} {r : Row}
    (h : hasNode (processRow t g r) n = true) :
    hasNode g n = true ∨ n = r.gene := by
  by_cases hn : n = r.gene
  · exact Or.inr hn
  · left
    unfold processRow at h
    cases hg : hasNode g r.gene with
    | true => simpa [hg, hasNode_addEdge] using h
    | false =>
        simp only [hg, Bool.false_eq_true, if_false, hasNode_addEdge] at h
        unfold hasNode addNode at h
        rw [hasKey_iff_mem_map_fst] at h
        unfold setKey at h
        unfold hasNode at hg
        rw [hg] at h
        simp only [Bool.false_eq_true, if_false, List.map_append, List.mem_append] at h
        rcases h with h | h
        · unfold hasNode
          rw [hasKey_iff_mem_map_fst]
          exact h
        · simp only [List.map_cons, List.map_nil, List.mem_singleton] at h
          exact absurd h hn

theorem nodeData_of_hasNode {g : Graph} {n : String} (h : hasNode g n = true) :
    ∃ d, nodeData g n = some d := by
  have := @lookupKey_isSome_of_hasKey _ g.nodes n h
  cases hd : lookupKey g.nodes n with
  | none => rw [hd] at this; exact Bool.noConfusion this
  | some d => exact ⟨d, hd⟩

theorem isGeneNode_processRow_stable {g : Graph} {n : String} (t : String) (r : Row)
    (h : hasNode g n = true) :
    isGeneNode (processRow t g r) n = isGeneNode g n := by
  obtain ⟨d, hd⟩ := nodeData_of_hasNode h
  have hd2 := nodeData_processRow_preserved hd t r
  unfold isGeneNode
  rw [hd, hd2]

theorem mem_neighborsOf_imp {g : Graph} {t x : String} (h : x ∈ neighborsOf g t) :
    ∃ e ∈ g.edges, x = e.1 ∨ x = e.2.1 := by
  unfold neighborsOf at h
  rw [List.mem_filterMap] at h
  obtain ⟨e, he, hf⟩ := h
  refine ⟨e, he, ?_⟩
  by_cases h1 : e.1 = t
  · rw [if_pos h1] at hf
    right
    exact (Option.some.injEq _ _ ▸ hf).symm
  · rw [if_neg h1] at hf
    by_cases h2 : e.2.1 = t
    · rw [if_pos h2] at hf
      left
      exact (Option.some.injEq _ _ ▸ hf).symm
    · rw [if_neg h2] at hf
      exact Option.noConfusion hf

theorem hasNode_of_mem_neighborsOf {rows : List Row} {central : String} {g : Graph}
    (hInv : Phase2Inv rows central g) {t x : String} (h : x ∈ neighborsOf g t) :
    hasNode g x = true := by
  obtain ⟨e, he, hx⟩ := mem_neighborsOf_imp h
  obtain ⟨h1, h2⟩ := hInv.2.2.2 e he
  rcases hx with rfl | rfl
  · exact h1
  · exact h2

theorem neighborsOf_eq_of_edges {g g2 : Graph} (t : String) (h : g.edges = g2.edges) :
    neighborsOf g t = neighborsOf g2 t := by
  unfold neighborsOf
  rw [h]

theorem neighborsOf_updateEdge (g : Graph) (u v : String) (w : ℚ) (t : String) :
    neighborsOf { g with edges := updateEdge g.edges u v w } t = neighborsOf g t := by
  unfold neighborsOf updateEdge
  rw [List.filterMap_map]
  apply List.filterMap_congr
  intro e _
  by_cases hm : edgeMatch u v e.1 e.2.1 = true
  · rw [Function.comp_apply, if_pos hm]
  · rw [Function.comp_apply, if_neg hm]

theorem hasEdge_updateEdge (g : Graph) (u v : String) (w : ℚ) (a b : String) :
    hasEdge { g with edges := updateEdge g.edges u v w } a b = hasEdge g a b := by
  unfold hasEdge updateEdge
  rw [List.any_map]
  congr 1
  funext e
  by_cases hm : edgeMatch u v e.1 e.2.1 = true
  · rw [Function.comp_apply, if_pos hm]
  · rw [Function.comp_apply, if_neg hm]

end WebNetwork

namespace WebNetwork

theorem hasNode_of_nodeData_some {g : Graph} {n : String} {d : NodeData}
    (h : nodeData g n = some d) : hasNode g n = true := by
  cases hn : hasNode g n with
  | true => rfl
  | false =>
      rw [hasNode_eq_false_iff_nodeData] at hn
      rw [hn] at h
      exact Option.noConfusion h

theorem hasNode_addTissue_mono (rows : List Row) (central : String) {g : Graph}
    {n : String} (t : String) (h : hasNode g n = true) :
    hasNode (addTissue rows central g t) n = true := by
  unfold hasNode
  rw [nodes_addTissue]
  exact hasKey_setKey_mono _ h

theorem hasNode_phase1Graph_central (rows : List Row) (central : String) :
    hasNode (phase1Graph rows central) central = true := by
  unfold phase1Graph
  refine List.foldlRecOn (motive := fun (g : Graph) => hasNode g central = true) _ _ _
    (by simp [hasNode, hasKey]) ?_
  intro g2 hg2 t _
  exact hasNode_addTissue_mono rows central t hg2

theorem isGeneNode_phase1Graph_central (rows : List Row) (central : String) :
    isGeneNode (phase1Graph rows central) central = false := by
  by_cases hc : central ∈ tissueTypes rows
  · unfold isGeneNode
    rw [nodeData_phase1Graph_tissue rows central hc]
  · unfold isGeneNode
    rw [nodeData_phase1Graph_central rows central hc]

theorem phase2Inv_phase1Graph (rows : List Row) (central : String) :
    Phase2Inv rows central (phase1Graph rows central) := by
  refine ⟨?_,
    ⟨hasNode_phase1Graph_central rows central,
      isGeneNode_phase1Graph_central rows central⟩, ?_, ?_⟩
  · intro s hs
    exact ⟨_, nodeData_phase1Graph_tissue rows central hs⟩
  · intro n hn
    rcases hasNode_phase1Graph_imp rows central hn with rfl | h
    · exact Or.inl rfl
    · exact Or.inr (Or.inl h)
  · intro e he
    rw [edges_phase1Graph rows central] at he
    rw [List.mem_map] at he
    obtain ⟨s, hs, rfl⟩ := he
    exact ⟨hasNode_phase1Graph_central rows central,
      hasNode_of_nodeData_some (nodeData_phase1Graph_tissue rows central hs)⟩

theorem nodeData_processRow_gene_new (t : String) (g : Graph) (r : Row)
    (hg : hasNode g r.gene = false) :
    nodeData (processRow t g r) r.gene = some (NodeData.gene r.pcc t) := by
  unfold processRow
  simp only [hg, Bool.false_eq_true, if_false, nodeData_addEdge]
  exact nodeData_addNode_self g r.gene (NodeData.gene r.pcc t)

theorem phase2Inv_processRow (rows : List Row) (central : String) {g : Graph}
    (hInv : Phase2Inv rows central g) {t : String} (ht : t ∈ tissueTypes rows)
    (r : Row) : Phase2Inv rows central (processRow t g r) := by
  obtain ⟨h1, h2, h3, h4⟩ := hInv
  refine ⟨?_,
    ⟨hasNode_processRow_mono t r h2.1,
      by rw [isGeneNode_processRow_stable t r h2.1]; exact h2.2⟩, ?_, ?_⟩
  · intro s hs
    obtain ⟨c, hc⟩ := h1 s hs
    exact ⟨c, nodeData_processRow_preserved hc t r⟩
  · intro n hn
    rcases hasNode_processRow_imp hn with hgn | rfl
    · rcases h3 n hgn with hc | hc | ⟨p, tt, hd⟩
      · exact Or.inl hc
      · exact Or.inr (Or.inl hc)
      · exact Or.inr (Or.inr ⟨p, tt, nodeData_processRow_preserved hd t r⟩)
    · cases hgn : hasNode g r.gene with
      | true =>
          rcases h3 r.gene hgn with hc | hc | ⟨p, tt, hd⟩
          · exact Or.inl hc
          · exact Or.inr (Or.inl hc)
          · exact Or.inr (Or.inr ⟨p, tt, nodeData_processRow_preserved hd t r⟩)
      | false =>
          exact Or.inr (Or.inr ⟨r.pcc, t, nodeData_processRow_gene_new t g r hgn⟩)
  · intro e he
    rcases edges_processRow_cases t g r with hcase | hcase
    · rw [hcase] at he
      unfold updateEdge at he
      rw [List.mem_map] at he
      obtain ⟨e0, he0, hdef⟩ := he
      obtain ⟨ha, hb⟩ := h4 e0 he0
      by_cases hm : edgeMatch r.gene t e0.1 e0.2.1 = true
      · rw [if_pos hm] at hdef
        rw [← hdef]
        exact ⟨hasNode_processRow_mono t r ha, hasNode_processRow_mono t r hb⟩
      · rw [if_neg hm] at hdef
        rw [← hdef]
        exact ⟨hasNode_processRow_mono t r ha, hasNode_processRow_mono t r hb⟩
    · rw [hcase, List.mem_append] at he
      rcases he with he | he
      · obtain ⟨ha, hb⟩ := h4 e he
        exact ⟨hasNode_processRow_mono t r ha, hasNode_processRow_mono t r hb⟩
      · simp only [List.mem_singleton] at he
        subst he
        obtain ⟨c, hc⟩ := h1 t ht
        exact ⟨hasNode_processRow_gene t g r,
          hasNode_processRow_mono t r (hasNode_of_nodeData_some hc)⟩

theorem isGeneNode_processRow_gene (rows : List Row) (central : String) {g : Graph}
    (hInv : Phase2Inv rows central g) (t : String) {r : Row}
    (hgt : r.gene ∉ tissueTypes rows) (hgc : r.gene ≠ central) :
    isGeneNode (processRow t g r) r.gene = true := by
  cases hg : hasNode g r.gene with
  | true =>
      rcases hInv.2.2.1 r.gene hg with hc | hc | ⟨p, tt, hd⟩
      · exact absurd hc hgc
      · exact absurd hc hgt
      · unfold isGeneNode
        rw [nodeData_processRow_preserved hd t r]
  | false =>
      unfold isGeneNode
      rw [nodeData_processRow_gene_new t g r hg]

theorem edges_processRow_fresh (t : String) (g : Graph) (r : Row)
    (hfresh : hasEdge g r.gene t = false) :
    (processRow t g r).edges = g.edges ++ [(r.gene, t, r.pcc * 3)] := by
  unfold processRow addEdge
  cases hn : hasNode g r.gene <;>
    simp [hn, hasEdge_addNode, edges_addNode, hfresh]

theorem geneNbrs_processRow_same (rows : List Row) (central : String) {t : String}
    {g : Graph} {r : Row} (hInv : Phase2Inv rows central g)
    (ht : t ∈ tissueTypes rows) (hgt : r.gene ∉ tissueTypes rows)
    (hgc : r.gene ≠ central) (hfresh : hasEdge g r.gene t = false) :
    (neighborsOf (processRow t g r) t).filter (isGeneNode (processRow t g r))
      = (neighborsOf g t).filter (isGeneNode g) ++ [r.gene] := by
  have hedges := edges_processRow_fresh t g r hfresh
  have hne : r.gene ≠ t := fun hc => hgt (hc ▸ ht)
  have hnb : neighborsOf (processRow t g r) t = neighborsOf g t ++ [r.gene] := by
    unfold neighborsOf
    rw [hedges, List.filterMap_append]
    congr 1
    simp [hne]
  rw [hnb, List.filter_append]
  congr 1
  · apply List.filter_congr
    intro x hx
    exact isGeneNode_processRow_stable t r (hasNode_of_mem_neighborsOf hInv hx)
  · have hgene := isGeneNode_processRow_gene rows central hInv t hgt hgc
    simp [hgene]

theorem geneNbrs_processRow_other (rows : List Row) (central : String)
    {t s : String} {g : Graph} (r : Row) (hInv : Phase2Inv rows central g)
    (hs : s ∈ tissueTypes rows) (hst : s ≠ t) :
    (neighborsOf (processRow s g r) t).filter (isGeneNode (processRow s g r))
      = (neighborsOf g t).filter (isGeneNode g) := by
  have hstable : ∀ x ∈ neighborsOf g t,
      isGeneNode (processRow s g r) x = isGeneNode g x := fun x hx =>
    isGeneNode_processRow_stable s r (hasNode_of_mem_neighborsOf hInv hx)
  rcases edges_processRow_cases s g r with hcase | hcase
  · have hnb : neighborsOf (processRow s g r) t = neighborsOf g t := by
      have h1 : neighborsOf (processRow s g r) t
          = neighborsOf { g with edges := updateEdge g.edges r.gene s (r.pcc * 3) } t :=
        neighborsOf_eq_of_edges t hcase
      rw [h1, neighborsOf_updateEdge]
    rw [hnb]
    exact List.filter_congr hstable
  · by_cases hrt : r.gene = t
    · have hnb : neighborsOf (processRow s g r) t = neighborsOf g t ++ [s] := by
        unfold neighborsOf
        rw [hcase, List.filterMap_append]
        congr 1
        simp [hrt, hst]
      rw [hnb, List.filter_append]
      have hsg : isGeneNode (processRow s g r) s = false := by
        obtain ⟨c, hc⟩ := hInv.1 s hs
        unfold isGeneNode
        rw [nodeData_processRow_preserved hc s r]
      rw [List.filter_congr hstable]
      simp [hsg]
    · have hnb : neighborsOf (processRow s g r) t = neighborsOf g t := by
        unfold neighborsOf
        rw [hcase, List.filterMap_append]
        have : List.filterMap
            (fun e => if e.1 = t then some e.2.1 else if e.2.1 = t then some e.1 else none)
            [(r.gene, s, r.pcc * 3)] = [] := by
          simp [hrt, hst]
        rw [this]
        simp
      rw [hnb]
      exact List.filter_congr hstable

theorem hasEdge_processRow_other_eq (rows : List Row)
    {t s : String} {g : Graph} (r : Row) (hst : s ≠ t) {x : String}
    (hxt : x ∉ tissueTypes rows) (hs : s ∈ tissueTypes rows) :
    hasEdge (processRow s g r) x t = hasEdge g x t := by
  rcases edges_processRow_cases s g r with hcase | hcase
  · unfold hasEdge
    rw [hcase]
    exact hasEdge_updateEdge { g with edges := g.edges } r.gene s (r.pcc * 3) x t
  · unfold hasEdge
    rw [hcase, List.any_append]
    have hsing : ([(r.gene, s, r.pcc * 3)].any fun e => edgeMatch x t e.1 e.2.1) = false := by
      simp only [List.any_cons, List.any_nil, Bool.or_false]
      cases hm : edgeMatch x t r.gene s with
      | false => rfl
      | true =>
          exfalso
          rw [edgeMatch_iff] at hm
          rcases hm with ⟨_, hb⟩ | ⟨_, hb⟩
          · exact hst hb
          · exact hxt (hb ▸ hs)
    rw [hsing, Bool.or_false]

end WebNetwork

namespace WebNetwork

theorem stage_other_fold (rows : List Row) (central : String) {t s : String}
    (hs : s ∈ tissueTypes rows) (hst : s ≠ t) (g : Graph)
    (hInv : Phase2Inv rows central g) :
    Phase2Inv rows central (processTissueRows rows s g)
      ∧ (neighborsOf (processTissueRows rows s g) t).filter
            (isGeneNode (processTissueRows rows s g))
          = (neighborsOf g t).filter (isGeneNode g)
      ∧ ∀ x, x ∉ tissueTypes rows →
          hasEdge (processTissueRows rows s g) x t = hasEdge g x t := by
  unfold processTissueRows
  refine List.foldlRecOn
    (motive := fun (g2 : Graph) => Phase2Inv rows central g2
      ∧ (neighborsOf g2 t).filter (isGeneNode g2)
          = (neighborsOf g t).filter (isGeneNode g)
      ∧ ∀ x, x ∉ tissueTypes rows → hasEdge g2 x t = hasEdge g x t)
    _ _ _ ⟨hInv, rfl, fun _ _ => rfl⟩ ?_
  intro g2 hg2 r _
  obtain ⟨hI, hN, hE⟩ := hg2
  refine ⟨phase2Inv_processRow rows central hI hs r, ?_, ?_⟩
  · rw [geneNbrs_processRow_other rows central r hI hs hst]
    exact hN
  · intro x hx
    rw [hasEdge_processRow_other_eq rows r hst hx hs]
    exact hE x hx

theorem stage_same_fold (rows : List Row) (central : String) {t : String}
    (ht : t ∈ tissueTypes rows) :
    ∀ (L : List Row) (g : Graph), Phase2Inv rows central g →
      (L.map Row.gene).Nodup →
      (∀ r ∈ L, r.gene ∉ tissueTypes rows ∧ r.gene ≠ central) →
      (∀ r ∈ L, hasEdge g r.gene t = false) →
      Phase2Inv rows central (L.foldl (processRow t) g)
        ∧ (neighborsOf (L.foldl (processRow t) g) t).filter
              (isGeneNode (L.foldl (processRow t) g))
            = (neighborsOf g t).filter (isGeneNode g) ++ L.map Row.gene := by
  intro L
  induction L with
  | nil => intro g hI _ _ _; exact ⟨hI, by simp⟩
  | cons r L ih =>
      intro g hI hnd hdisj hfresh
      rw [List.foldl_cons]
      obtain ⟨hgt, hgc⟩ := hdisj r (List.mem_cons_self _ _)
      have hfr := hfresh r (List.mem_cons_self _ _)
      have hI2 := phase2Inv_processRow rows central hI ht r
      have hstep := geneNbrs_processRow_same rows central hI ht hgt hgc hfr
      have hedges := edges_processRow_fresh t g r hfr
      have hfresh2 : ∀ r2 ∈ L, hasEdge (processRow t g r) r2.gene t = false := by
        intro r2 hr2
        unfold hasEdge
        rw [hedges, List.any_append]
        have hold := hfresh r2 (List.mem_cons_of_mem _ hr2)
        unfold hasEdge at hold
        rw [hold]
        simp only [Bool.false_or, List.any_cons, List.any_nil, Bool.or_false]
        cases hm : edgeMatch r2.gene t r.gene t with
        | false => rfl
        | true =>
            exfalso
            rw [edgeMatch_iff] at hm
            rcases hm with ⟨ha, _⟩ | ⟨ha, hb⟩
            · have hne : r.gene ≠ r2.gene := by
                rw [List.map_cons, List.nodup_cons] at hnd
                intro hc
                exact hnd.1 (hc ▸ List.mem_map.mpr ⟨r2, hr2, rfl⟩)
              exact hne ha
            · exact (hdisj r2 (List.mem_cons_of_mem _ hr2)).1 (hb ▸ ht)
      have hnd2 : (L.map Row.gene).Nodup := by
        rw [List.map_cons, List.nodup_cons] at hnd
        exact hnd.2
      have hdisj2 : ∀ r2 ∈ L, r2.gene ∉ tissueTypes rows ∧ r2.gene ≠ central :=
        fun r2 hr2 => hdisj r2 (List.mem_cons_of_mem _ hr2)
      obtain ⟨hIfin, hNfin⟩ := ih (processRow t g r) hI2 hnd2 hdisj2 hfresh2
      refine ⟨hIfin, ?_⟩
      rw [hNfin, hstep]
      simp

theorem geneNbrs_phase1 (rows : List Row) (central : String) (t : String) :
    (neighborsOf (phase1Graph rows central) t).filter
        (isGeneNode (phase1Graph rows central)) = [] := by
  rw [List.filter_eq_nil_iff]
  intro x hx
  have hxcase : x = central ∨ x ∈ tissueTypes rows := by
    unfold neighborsOf at hx
    rw [List.mem_filterMap] at hx
    obtain ⟨e2, he2, hf⟩ := hx
    rw [edges_phase1Graph rows central, List.mem_map] at he2
    obtain ⟨s2, hs2, rfl⟩ := he2
    dsimp only at hf
    by_cases h1 : central = t
    · rw [if_pos h1] at hf
      right
      have hs2x : s2 = x := by simpa using hf
      exact hs2x ▸ hs2
    · rw [if_neg h1] at hf
      by_cases h2 : s2 = t
      · rw [if_pos h2] at hf
        left
        exact (by simpa using hf : central = x).symm
      · rw [if_neg h2] at hf
        exact Option.noConfusion hf
  rcases hxcase with hxc | hxt
  · rw [hxc, isGeneNode_phase1Graph_central rows central]
    simp
  · unfold isGeneNode
    rw [nodeData_phase1Graph_tissue rows central hxt]
    simp

theorem hasEdge_phase1_nontissue (rows : List Row) (central : String) {t x : String}
    (hxt : x ∉ tissueTypes rows)
    (hxc : x ≠ central) : hasEdge (phase1Graph rows central) x t = false := by
  unfold hasEdge
  rw [edges_phase1Graph rows central, List.any_eq_false]
  intro e he
  rw [List.mem_map] at he
  obtain ⟨s, hs, rfl⟩ := he
  cases hm : edgeMatch x t central s with
  | false => simp
  | true =>
      exfalso
      rw [edgeMatch_iff] at hm
      rcases hm with ⟨ha, _⟩ | ⟨_, hb⟩
      · exact hxc ha.symm
      · exact hxt (hb ▸ hs)

theorem attachedItemCount_buildGraph (rows : List Row) (central : String) (t : String)
    (ht : t ∈ tissueTypes rows)
    (hnd : ((topRows rows t).map Row.gene).Nodup)
    (hdisj : ∀ r ∈ topRows rows t, r.gene ∉ tissueTypes rows ∧ r.gene ≠ central) :
    attachedItemCount (buildGraph rows central) t = (topRows rows t).length := by
  obtain ⟨la, lb, hsplit⟩ := List.append_of_mem ht
  have hndt := nodup_tissueTypes rows
  rw [hsplit, List.nodup_append] at hndt
  obtain ⟨hnla, hnclb, hdis⟩ := hndt
  have htla : t ∉ la := fun hc => hdis hc (List.mem_cons_self _ _)
  have htlb : t ∉ lb := (List.nodup_cons.1 hnclb).1
  have hmem_la : ∀ s ∈ la, s ∈ tissueTypes rows := by
    intro s hs; rw [hsplit]; exact List.mem_append_left _ hs
  have hmem_lb : ∀ s ∈ lb, s ∈ tissueTypes rows := by
    intro s hs; rw [hsplit]; exact List.mem_append_right _ (List.mem_cons_of_mem _ hs)
  unfold buildGraph
  rw [hsplit, List.foldl_append, List.foldl_cons]
  -- stage A: tissues before t
  have hstageA : Phase2Inv rows central
        (la.foldl (fun g s => processTissueRows rows s g) (phase1Graph rows central))
      ∧ (neighborsOf (la.foldl (fun g s => processTissueRows rows s g)
            (phase1Graph rows central)) t).filter
          (isGeneNode (la.foldl (fun g s => processTissueRows rows s g)
            (phase1Graph rows central))) = []
      ∧ ∀ x, x ∉ tissueTypes rows → x ≠ central →
          hasEdge (la.foldl (fun g s => processTissueRows rows s g)
            (phase1Graph rows central)) x t = false := by
    refine List.foldlRecOn
      (motive := fun (g2 : Graph) => Phase2Inv rows central g2
        ∧ (neighborsOf g2 t).filter (isGeneNode g2) = []
        ∧ ∀ x, x ∉ tissueTypes rows → x ≠ central → hasEdge g2 x t = false)
      _ _ _
      ⟨phase2Inv_phase1Graph rows central, geneNbrs_phase1 rows central t,
        fun x hx hxc => hasEdge_phase1_nontissue rows central hx hxc⟩ ?_
    intro g2 hg2 s hsla
    obtain ⟨hI, hN, hE⟩ := hg2
    have hst : s ≠ t := fun hc => htla (hc ▸ hsla)
    obtain ⟨hI2, hN2, hE2⟩ :=
      stage_other_fold rows central (hmem_la s hsla) hst g2 hI
    refine ⟨hI2, by rw [hN2]; exact hN, ?_⟩
    intro x hx hxc
    rw [hE2 x hx]
    exact hE x hx hxc
  obtain ⟨hIA, hNA, hEA⟩ := hstageA
  -- stage B: tissue t itself
  obtain ⟨hIB, hNB⟩ := stage_same_fold rows central ht (topRows rows t) _ hIA hnd hdisj
    (fun r hr => hEA r.gene (hdisj r hr).1 (hdisj r hr).2)
  -- stage C: tissues after t
  have hstageC : Phase2Inv rows central
        (lb.foldl (fun g s => processTissueRows rows s g)
          (processTissueRows rows t
            (la.foldl (fun g s => processTissueRows rows s g) (phase1Graph rows central))))
      ∧ (neighborsOf (lb.foldl (fun g s => processTissueRows rows s g)
            (processTissueRows rows t
              (la.foldl (fun g s => processTissueRows rows s g)
                (phase1Graph rows central)))) t).filter
          (isGeneNode (lb.foldl (fun g s => processTissueRows rows s g)
            (processTissueRows rows t
              (la.foldl (fun g s => processTissueRows rows s g)
                (phase1Graph rows central)))))
          = (topRows rows t).map Row.gene := by
    refine List.foldlRecOn
      (motive := fun (g2 : Graph) => Phase2Inv rows central g2
        ∧ (neighborsOf g2 t).filter (isGeneNode g2) = (topRows rows t).map Row.gene)
      _ _ _ ⟨?_, ?_⟩ ?_
    · exact hIB
    · show (neighborsOf (List.foldl (processRow t) _ (topRows rows t)) t).filter _
        = (topRows rows t).map Row.gene
      rw [show List.foldl (processRow t)
            (la.foldl (fun g s => processTissueRows rows s g) (phase1Graph rows central))
            (topRows rows t)
          = processTissueRows rows t
              (la.foldl (fun g s => processTissueRows rows s g) (phase1Graph rows central))
        from rfl] at hNB ⊢
      rw [hNB, hNA]
      simp
    · intro g2 hg2 s hslb
      obtain ⟨hI, hN⟩ := hg2
      have hst : s ≠ t := fun hc => htlb (hc ▸ hslb)
      obtain ⟨hI2, hN2, _⟩ :=
        stage_other_fold rows central (hmem_lb s hslb) hst g2 hI
      exact ⟨hI2, by rw [hN2]; exact hN⟩
  obtain ⟨_, hNC⟩ := hstageC
  unfold attachedItemCount
  rw [hNC, List.length_map]

end WebNetwork

namespace WebNetwork

/-- Claim C1 (amended): for a category `t` whose filtered records carry
pairwise-distinct item names, none equal to the central id or to a category
label, the number of gene nodes attached to `t` equals
`min(distinct items in t, 150)`; the retained records all belong to `t`, and
any record of `t` scoring strictly more than a retained one is itself
retained (retention is a 150-record descending-score prefix; the order among
records of equal score at the cut-off is implementation-defined in pandas'
default quicksort, so no tie-break rule is asserted).  Duplicate item names
break the count (see the counterexample), which is why the distinctness
hypothesis is required. -/
theorem c1_cap_amended (rows : List Row) (central : String) (t : String)
    (ht : t ∈ tissueTypes rows)
    (hnd : ((catRows rows t).map Row.gene).Nodup)
    (hdisj : ∀ r ∈ catRows rows t, r.gene ∉ tissueTypes rows ∧ r.gene ≠ central) :
    attachedItemCount (buildGraph rows central) t
        = min (((catRows rows t).map Row.gene).toFinset.card) maxGenesPerTissue
      ∧ (∀ a ∈ topRows rows t, a ∈ catRows rows t)
      ∧ (∀ a b : Row, a ∈ catRows rows t → b ∈ catRows rows t → b.pcc < a.pcc →
          b ∈ topRows rows t → a ∈ topRows rows t) := by
  have hperm := List.perm_insertionSort scoreGE (catRows rows t)
  have hpermg : ((List.insertionSort scoreGE (catRows rows t)).map Row.gene).Perm
      ((catRows rows t).map Row.gene) := hperm.map Row.gene
  have hsub : ∀ a ∈ topRows rows t, a ∈ catRows rows t := by
    intro a hat
    unfold topRows at hat
    exact hperm.subset (List.mem_of_mem_take hat)
  have hndtop : ((topRows rows t).map Row.gene).Nodup := by
    have h1 : ((List.insertionSort scoreGE (catRows rows t)).map Row.gene).Nodup :=
      hpermg.nodup_iff.mpr hnd
    unfold topRows
    exact h1.sublist ((List.take_sublist _ _).map Row.gene)
  have hdisjtop : ∀ r ∈ topRows rows t, r.gene ∉ tissueTypes rows ∧ r.gene ≠ central :=
    fun r hr => hdisj r (hsub r hr)
  refine ⟨?_, hsub, ?_⟩
  · rw [attachedItemCount_buildGraph rows central t ht hndtop hdisjtop]
    unfold topRows
    rw [List.length_take, List.length_insertionSort]
    rw [List.toFinset_card_of_nodup hnd, List.length_map]
    exact Nat.min_comm _ _
  · intro a b ha _ hlt hbtop
    have has : a ∈ List.insertionSort scoreGE (catRows rows t) := hperm.mem_iff.mpr ha
    by_cases hatop : a ∈ topRows rows t
    · exact hatop
    · exfalso
      have hsorted : List.Pairwise scoreGE (List.insertionSort scoreGE (catRows rows t)) :=
        List.sorted_insertionSort scoreGE (catRows rows t)
      have hdropmem : a ∈ (List.insertionSort scoreGE (catRows rows t)).drop
          maxGenesPerTissue := by
        unfold topRows at hatop
        have := List.take_append_drop maxGenesPerTissue
          (List.insertionSort scoreGE (catRows rows t))
        rw [← this, List.mem_append] at has
        rcases has with h | h
        · exact absurd h hatop
        · exact h
      rw [← List.take_append_drop maxGenesPerTissue
            (List.insertionSort scoreGE (catRows rows t))] at hsorted
      have hba := (List.pairwise_append.1 hsorted).2.2 b
        (by unfold topRows at hbtop; exact hbtop) a hdropmem
      exact absurd hba (not_le.mpr hlt)

end WebNetwork

namespace WebNetwork

set_option maxRecDepth 100000 in
unseal Rat.mul in
/-- Claim C1 counterexample: tissue `T` holds 151 filtered rows — 150 copies
of gene `A` (score 0.9) and one row of gene `B` (score 0.8).  There are 2
distinct item names, so the claim demands `min(2, 150) = 2` attached item
nodes, but the 150-cap keeps only the 150 `A`-rows and a single gene node is
attached. -/
theorem c1_counterexample :
    attachedItemCount (buildGraph c1rows "GCH1") "T" = 1 ∧
      min (((catRows c1rows "T").map Row.gene).toFinset.card) maxGenesPerTissue = 2 := by
  constructor
  · decide
  · decide

theorem c1_cap_amended_witness :
    "T" ∈ tissueTypes [⟨"A", "T", mkRat 9 10⟩, ⟨"B", "T", mkRat 17 20⟩] ∧
      (attachedItemCount
            (buildGraph [⟨"A", "T", mkRat 9 10⟩, ⟨"B", "T", mkRat 17 20⟩] "GCH1") "T"
          = min (((catRows [⟨"A", "T", mkRat 9 10⟩, ⟨"B", "T", mkRat 17 20⟩] "T").map
              Row.gene).toFinset.card) maxGenesPerTissue
        ∧ (∀ a ∈ topRows [⟨"A", "T", mkRat 9 10⟩, ⟨"B", "T", mkRat 17 20⟩] "T",
            a ∈ catRows [⟨"A", "T", mkRat 9 10⟩, ⟨"B", "T", mkRat 17 20⟩] "T")
        ∧ (∀ a b : Row,
            a ∈ catRows [⟨"A", "T", mkRat 9 10⟩, ⟨"B", "T", mkRat 17 20⟩] "T" →
            b ∈ catRows [⟨"A", "T", mkRat 9 10⟩, ⟨"B", "T", mkRat 17 20⟩] "T" →
            b.pcc < a.pcc →
            b ∈ topRows [⟨"A", "T", mkRat 9 10⟩, ⟨"B", "T", mkRat 17 20⟩] "T" →
            a ∈ topRows [⟨"A", "T", mkRat 9 10⟩, ⟨"B", "T", mkRat 17 20⟩] "T")) :=
  ⟨by decide,
    c1_cap_amended [⟨"A", "T", mkRat 9 10⟩, ⟨"B", "T", mkRat 17 20⟩] "GCH1" "T"
      (by decide) (by decide) (by decide)⟩

end WebNetwork
